import Mathlib

/-!
Verification of the sandboxed filesystem operation engine of mcp-launcher
(custom-servers/filesystem).  The TypeScript sources are shallowly embedded:
pure helpers become Lean functions, filesystem state becomes an
explicit tree threaded through the operations, thrown exceptions become
`Except`/`Option` results, and JavaScript runtime conveniences (truthiness,
`||` defaulting, `Array.prototype.splice` clamping, string methods) are
modelled by small executable helpers defined below.  JavaScript strings are
represented by `String`, with the string methods implemented over `String.data`
so that all definitions evaluate inside the kernel.
-/

/-! ## JavaScript primitive semantics -/

/-- Truthiness of an optional JS number field (`undefined`, `0` are falsy). -/
def jsTruthyInt (o : Option Int) : Bool :=
  match o with
  | none => false
  | some n => n != 0

/-- Truthiness of an optional JS string field (`undefined`, `""` are falsy). -/
def jsTruthyStr (o : Option String) : Bool :=
  match o with
  | none => false
  | some s => s != ""

/-- Truthiness of an optional JS boolean field (`undefined`, `false` falsy). -/
def jsTruthyBool (o : Option Bool) : Bool :=
  match o with
  | none => false
  | some b => b

/-- JS `x as boolean || d` defaulting for an optional boolean argument. -/
def jsOrBool (o : Option Bool) (d : Bool) : Bool :=
  if jsTruthyBool o then true else d

/-- JS `x as number || d` defaulting for an optional numeric argument. -/
def jsOrInt (o : Option Int) (d : Int) : Int :=
  match o with
  | some n => if n != 0 then n else d
  | none => d

/-- JS `x !== false` (used for `validate_content`, `recursive`, ... defaults). -/
def jsNotFalse (o : Option Bool) : Bool :=
  match o with
  | some false => false
  | _ => true

/-- JS `String.prototype.split` with a single-character separator, over char
lists.  Splitting the empty list yields one empty field, as in JS. -/
def jsSplitChar (sep : Char) (s : List Char) : List (List Char) :=
  match s with
  | [] => [[]]
  | c :: rest =>
    match jsSplitChar sep rest with
    | [] => [[]]
    | f :: fs => if c = sep then [] :: f :: fs else (c :: f) :: fs

/-- JS `s.split(sep)`.  The embedded code only ever splits on the
single-character separators `"\n"` and `"/"`; an empty separator splits into
single characters as in JS. -/
def jsSplit (s sep : String) : List String :=
  match sep.data with
  | [] => s.data.map (fun c => String.mk [c])
  | [c] => (jsSplitChar c s.data).map String.mk
  | _ => [s]

/-- JS `Array.prototype.join(sep)` for string arrays. -/
def jsJoin (sep : String) (parts : List String) : String :=
  String.intercalate sep parts

/-- JS `s.startsWith(t)` (plain string prefix, not boundary-aligned). -/
def jsStartsWith (s t : String) : Bool :=
  t.data.isPrefixOf s.data

/-- Substring containment over char lists (JS `includes` semantics). -/
def listIsInfixOf (needle hay : List Char) : Bool :=
  needle.isPrefixOf hay ||
    match hay with
    | [] => false
    | _ :: t => listIsInfixOf needle t

/-- JS `s.includes(sub)`. -/
def jsIncludes (s sub : String) : Bool :=
  listIsInfixOf sub.data s.data

/-- Replace the first occurrence of `old` in `hay` by `new_` (JS
`String.prototype.replace` with a string pattern replaces only the first
occurrence; an empty `old` prepends `new_`, as in JS). -/
def listReplaceFirst (old new_ hay : List Char) : List Char :=
  if old.isPrefixOf hay then new_ ++ hay.drop old.length
  else
    match hay with
    | [] => []
    | c :: t => c :: listReplaceFirst old new_ t

/-- JS `s.replace(old, new)` for string patterns (first occurrence only). -/
def jsReplaceFirst (s old new_ : String) : String :=
  String.mk (listReplaceFirst old.data new_.data s.data)

/-- JS `s.trim()` (whitespace stripped from both ends). -/
def jsTrim (s : String) : String :=
  String.mk ((((s.data.dropWhile Char.isWhitespace).reverse).dropWhile
    Char.isWhitespace).reverse)

/-- JS `s.toLowerCase()` (ASCII case folding of the model). -/
def jsToLower (s : String) : String :=
  String.mk (s.data.map Char.toLower)

/-- Three-way comparison of char lists by code point, the model of JS
`String.prototype.localeCompare` on the ASCII file names used here. -/
def charListCmp (a b : List Char) : Int :=
  match a, b with
  | [], [] => 0
  | [], _ :: _ => -1
  | _ :: _, [] => 1
  | x :: xs, y :: ys =>
    if x.toNat < y.toNat then -1
    else if y.toNat < x.toNat then 1
    else charListCmp xs ys

/-- JS `a.localeCompare(b)`, modelled as code-point comparison. -/
def jsLocaleCompare (a b : String) : Int :=
  charListCmp a.data b.data

/-! ## PathSandbox: `isPathAllowed` (custom-servers/filesystem/src/index.ts)

`path.resolve` for POSIX paths: an absolute path is normalized; a relative
path is resolved against the working directory.  Normalization splits on `/`,
drops empty and `.` components and lets `..` pop the previous component. -/

/-- Fold of path components: `..` pops, `.` and empty components vanish. -/
def pathComponentsFold (comps : List String) : List String :=
  comps.foldl
    (fun acc c =>
      if c = "" || c = "." then acc
      else if c = ".." then acc.dropLast
      else acc ++ [c])
    []

/-- Normalize an absolute POSIX path (no trailing separator, `.`/`..` gone). -/
def posixNormalize (p : String) : String :=
  let comps := pathComponentsFold (jsSplit p "/")
  if comps.isEmpty then "/" else "/" ++ String.intercalate "/" comps

/-- Model of Node `path.resolve(p)` with working directory `cwd` (POSIX). -/
def jsPathResolve (cwd p : String) : String :=
  if jsStartsWith p "/" then posixNormalize p
  else posixNormalize (cwd ++ "/" ++ p)

/-- The `EnhancedFilesystemServer.isPathAllowed` (src/index.ts lines 112-118):
the resolved candidate must merely have some resolved allowed directory as a
plain string prefix (`String.prototype.startsWith`). -/
def isPathAllowed (allowedDirectories : List String) (cwd filePath : String) :
    Bool :=
  let resolvedPath := jsPathResolve cwd filePath
  allowedDirectories.any (fun allowedDir =>
    let resolvedAllowedDir := jsPathResolve cwd allowedDir
    jsStartsWith resolvedPath resolvedAllowedDir)

/-- Modelled from the spec (section 4.1, PathSandbox), for comparison with the
code: a root authorizes a path only when it is a directory-boundary-aligned
ancestor, i.e. the path equals the root or extends it past a separator. -/
def isPathAllowedSeparatorAligned (allowedDirectories : List String)
    (cwd filePath : String) : Bool :=
  let resolvedPath := jsPathResolve cwd filePath
  allowedDirectories.any (fun allowedDir =>
    let resolvedAllowedDir := jsPathResolve cwd allowedDir
    resolvedPath == resolvedAllowedDir ||
      jsStartsWith resolvedPath (resolvedAllowedDir ++ "/"))

/-! ## PatchEngine (tools/filesystem/file/read-file.ts, EditFilePatchTool)

A patch edit is the `PatchEdit` interface of the source: a tagged type plus
optional numeric and string fields.  Absent fields are `none` (JS
`undefined`). -/

inductive EditType where
  | replace
  | insert
  | delete
deriving DecidableEq

/-- The `PatchEdit` interface fields. -/
structure PatchEdit where
  type : EditType
  line : Option Int
  after_line : Option Int
  start_line : Option Int
  end_line : Option Int
  old : Option String
  new_ : Option String
  content : Option String
deriving DecidableEq

/-- Constructor for a replace edit. -/
def mkReplace (line : Option Int) (old new_ : Option String) : PatchEdit :=
  ⟨.replace, line, none, none, none, old, new_, none⟩

/-- Constructor for an insert edit. -/
def mkInsert (after_line : Option Int) (content : Option String) : PatchEdit :=
  ⟨.insert, none, after_line, none, none, none, none, content⟩

/-- Constructor for a single-line delete edit. -/
def mkDeleteLine (line : Option Int) : PatchEdit :=
  ⟨.delete, line, none, none, none, none, none, none⟩

/-- Constructor for a multi-line delete edit. -/
def mkDeleteRange (start_line end_line : Option Int) : PatchEdit :=
  ⟨.delete, none, none, start_line, end_line, none, none, none⟩

/-- Validation of a single edit against the original line count
(`validateEdits` switch body, read-file.ts lines 348-396).  Returns the
thrown error message, or `none` when the edit passes. -/
def validateOne (edit : PatchEdit) (totalLines : Nat) : Option String :=
  match edit.type with
  | .replace =>
    if !jsTruthyInt edit.line || !jsTruthyStr edit.new_ then
      some "Replace edit missing required fields: line, new"
    else if edit.line.getD 0 < 1 || edit.line.getD 0 > (totalLines : Int) then
      some ("Replace edit line " ++ toString (edit.line.getD 0) ++
        " out of range (1-" ++ toString totalLines ++ ")")
    else none
  | .insert =>
    if edit.after_line = none || !jsTruthyStr edit.content then
      some "Insert edit missing required fields: after_line, content"
    else if edit.after_line.getD 0 < 0 ||
        edit.after_line.getD 0 > (totalLines : Int) then
      some ("Insert edit after_line " ++ toString (edit.after_line.getD 0) ++
        " out of range (0-" ++ toString totalLines ++ ")")
    else none
  | .delete =>
    if jsTruthyInt edit.line then
      if edit.line.getD 0 < 1 || edit.line.getD 0 > (totalLines : Int) then
        some ("Delete edit line " ++ toString (edit.line.getD 0) ++
          " out of range (1-" ++ toString totalLines ++ ")")
      else none
    else if jsTruthyInt edit.start_line && jsTruthyInt edit.end_line then
      if edit.start_line.getD 0 < 1 ||
          edit.end_line.getD 0 > (totalLines : Int) ||
          edit.start_line.getD 0 > edit.end_line.getD 0 then
        some ("Delete edit range " ++ toString (edit.start_line.getD 0) ++
          "-" ++ toString (edit.end_line.getD 0) ++ " invalid")
      else none
    else some "Delete edit missing line or start_line/end_line"

/-- The `validateEdits`: every edit is checked against the original line count;
the first offending edit aborts with its error, otherwise the list is
returned unchanged. -/
def validateEdits (edits : List PatchEdit) (totalLines : Nat) :
    Except String (List PatchEdit) :=
  match edits with
  | [] => .ok []
  | e :: rest =>
    match validateOne e totalLines with
    | some err => .error err
    | none =>
      match validateEdits rest totalLines with
      | .error err => .error err
      | .ok v => .ok (e :: v)

/-- Effective line key of an edit: `a.line || a.start_line || a.after_line
|| 0` with JS truthiness (`0` falls through). -/
def editKey (e : PatchEdit) : Int :=
  if jsTruthyInt e.line then e.line.getD 0
  else if jsTruthyInt e.start_line then e.start_line.getD 0
  else if jsTruthyInt e.after_line then e.after_line.getD 0
  else 0

/-- Stable insertion of `x` into `l`: `x` is placed before the first element
`y` with `le x y`. -/
def insertBy {α : Type} (le : α → α → Bool) (x : α) : List α → List α
  | [] => [x]
  | y :: ys => if le x y then x :: y :: ys else y :: insertBy le x ys

/-- Stable insertion sort, the model of the (ES2019, stable)
`Array.prototype.sort`: elements comparing equal keep their input order. -/
def insertionSortBy {α : Type} (le : α → α → Bool) : List α → List α
  | [] => []
  | x :: xs => insertBy le x (insertionSortBy le xs)

/-- The `sortEdits`: sort by effective line number, descending (comparator
`bLine - aLine`); `le a b` holds when the comparator is `≤ 0`. -/
def sortEdits (edits : List PatchEdit) : List PatchEdit :=
  insertionSortBy (fun a b => editKey b - editKey a ≤ 0) edits

/-- JS array element read `l[i]` (`undefined` when out of range). -/
def jsIndex (l : List String) (i : Int) : Option String :=
  if i < 0 then none else l.get? i.toNat

/-- JS array element write `l[i] = v`.  Writing past the end extends the
array; the holes so created are rendered as empty strings, which is how
`join` displays them (holes are only ever observed through `join` here). -/
def jsSetIndex (l : List String) (i : Int) (v : String) : List String :=
  if i < 0 then l
  else
    let n := i.toNat
    if n < l.length then l.set n v
    else l ++ List.replicate (n - l.length) "" ++ [v]

/-- JS `Array.prototype.splice(start, count)` removal with JS clamping of
negative and overlarge indices. -/
def jsSpliceRemove {α : Type} (l : List α) (start cnt : Int) : List α :=
  let len : Int := l.length
  let s := (if start < 0 then max (len + start) 0 else min start len).toNat
  let c := (max cnt 0).toNat
  l.take s ++ l.drop (s + c)

/-- JS `Array.prototype.splice(start, 0, v)` single-element insertion with JS
clamping. -/
def jsSpliceInsertOne {α : Type} (l : List α) (start : Int) (v : α) :
    List α :=
  let len : Int := l.length
  let s := (if start < 0 then max (len + start) 0 else min start len).toNat
  l.take s ++ [v] ++ l.drop s

/-- The application loop of `applyEdits` (read-file.ts lines 408-469): edits
are applied to the line buffer in order; a failed content validation throws,
aborting the whole operation.  Returns the final buffer and the
`changesSummary`. -/
def applyEditsGo (validateContent : Bool) :
    List PatchEdit → List String → List String →
    Except String (List String × List String)
  | [], modifiedLines, summary => .ok (modifiedLines, summary)
  | edit :: rest, modifiedLines, summary =>
    match edit.type with
    | .replace =>
      let lineIndex : Int := edit.line.getD 0 - 1
      let currentContent := jsIndex modifiedLines lineIndex
      if validateContent && jsTruthyStr edit.old then
        match currentContent with
        | none =>
          .error "TypeError: Cannot read properties of undefined"
        | some cur =>
          if !jsIncludes cur (edit.old.getD "") then
            .error ("Replace validation failed at line " ++
              toString (edit.line.getD 0) ++ ": Expected to find \"" ++
              edit.old.getD "" ++ "\" but line contains \"" ++ cur ++ "\"")
          else
            applyEditsGo validateContent rest
              (jsSetIndex modifiedLines lineIndex
                (jsReplaceFirst cur (edit.old.getD "") (edit.new_.getD "")))
              (summary ++
                ["Line " ++ toString (edit.line.getD 0) ++ ": Replaced content"])
      else
        applyEditsGo validateContent rest
          (jsSetIndex modifiedLines lineIndex (edit.new_.getD ""))
          (summary ++
            ["Line " ++ toString (edit.line.getD 0) ++ ": Replaced content"])
    | .insert =>
      let insertIndex : Int := edit.after_line.getD 0
      applyEditsGo validateContent rest
        (jsSpliceInsertOne modifiedLines (insertIndex + 1)
          (edit.content.getD ""))
        (summary ++
          ["After line " ++ toString (edit.after_line.getD 0) ++
            ": Inserted content"])
    | .delete =>
      if jsTruthyInt edit.line then
        applyEditsGo validateContent rest
          (jsSpliceRemove modifiedLines (edit.line.getD 0 - 1) 1)
          (summary ++ ["Line " ++ toString (edit.line.getD 0) ++ ": Deleted"])
      else if jsTruthyInt edit.start_line && jsTruthyInt edit.end_line then
        applyEditsGo validateContent rest
          (jsSpliceRemove modifiedLines (edit.start_line.getD 0 - 1)
            (edit.end_line.getD 0 - edit.start_line.getD 0 + 1))
          (summary ++
            ["Lines " ++ toString (edit.start_line.getD 0) ++ "-" ++
              toString (edit.end_line.getD 0) ++ ": Deleted"])
      else
        applyEditsGo validateContent rest modifiedLines summary

/-- The `applyEdits` entry point: starts from a copy of the original lines. -/
def applyEdits (lines : List String) (edits : List PatchEdit)
    (validateContent : Bool) : Except String (List String × List String) :=
  applyEditsGo validateContent edits lines []

/-- The patch stage of `EditFilePatchTool.execute` (read-file.ts lines
212-220) on the line buffer: validate against the original line count, sort
descending, apply. -/
def patchLines (lines : List String) (edits : List PatchEdit)
    (validateContent : Bool) : Except String (List String × List String) :=
  match validateEdits edits lines.length with
  | .error err => .error err
  | .ok validated =>
    applyEdits lines (sortEdits validated) validateContent

/-- The patch stage on the file content: split into lines, run the stage,
join with `"\n"` for the single terminal write. -/
def patchStage (content : String) (edits : List PatchEdit)
    (validateContent : Bool) : Except String (String × List String) :=
  match patchLines (jsSplit content "\n") edits validateContent with
  | .error err => .error err
  | .ok (modifiedLines, changesSummary) =>
    .ok (jsJoin "\n" modifiedLines, changesSummary)

/-- Disk semantics of the patch stage: `fs.writeFile` runs only after the
whole stage succeeded, so an error leaves the file bytes untouched.  Returns
the final disk content and the error, if any. -/
def patchStageDisk (content : String) (edits : List PatchEdit)
    (validateContent : Bool) : String × Option String :=
  match patchStage content edits validateContent with
  | .error err => (content, some err)
  | .ok (newContent, _) => (newContent, none)

/-- JS `Math.round(num/den)` for `den > 0`, on the exact rational value
(round half up): `round(num/den) = floor((2*num + den) / (2*den))`. -/
def jsMathRoundFrac (num den : Int) : Int :=
  (2 * num + den).fdiv (2 * den)

/-- UTF-8 byte length of a string, the `fs.stat(...).size` of a text file. -/
def jsByteLength (s : String) : Nat :=
  (s.data.map Char.utf8Size).sum

/-- The four advisory recommendation levels of `analyzeUsageEfficiency`. -/
inductive Recommendation where
  | stronglyRecommended
  | recommended
  | acceptable
  | notRecommended
deriving DecidableEq

/-- The `UsageGuidance` interface. -/
structure UsageGuidance where
  recommendation : Recommendation
  reason : String
  alternative : Option String
  efficiencyNote : Option String
deriving DecidableEq

/-- Predicate of the `editsNeedingSearch` filter in
`analyzeUsageEfficiency`. -/
def editNeedsSearch (e : PatchEdit) : Bool :=
  (match e.type with
    | .replace => jsTruthyInt e.line && !jsTruthyStr e.old
    | .insert => e.after_line = none
    | .delete => !jsTruthyInt e.line && !jsTruthyInt e.start_line)

/-- The `analyzeUsageEfficiency` (read-file.ts lines 236-313).  `size` is the
stat size in bytes.  The source computes `fileSizeKB = size / 1024` as a
float and compares it against integer thresholds; these comparisons are
exact, so they are encoded over integers (`fileSizeKB < 10` is
`size < 10 * 1024`, `editsNeedingSearch > editCount * 0.5` is
`2 * editsNeedingSearch > editCount`).  The percentages inside the advisory
notes are `Math.round` of exact rational values:
`(1 - (editCount*10+100)/(fileSizeKB*2*1024))*100 =
(200*size - 1000*editCount - 10000) / (2*size)` and
`(1 - 100/(fileSizeKB*2))*100 = (100*size - 5120000) / size`. -/
def analyzeUsageEfficiency (size : Nat) (lines : List String)
    (edits : List PatchEdit) : UsageGuidance :=
  let totalLines := lines.length
  let editCount := edits.length
  let editsNeedingSearch := (edits.filter editNeedsSearch).length
  -- `totalLines` is computed but unused in the source as well
  let _ := totalLines
  if editCount = 1 ∧ size < 10 * 1024 then
    ⟨.notRecommended,
      "Single edit in small file (<10KB) - read_file + write_file is more efficient",
      some "Use: read_file -> modify content -> write_file (saves ~2-3 tool calls)",
      some "read_file + write_file would be ~50% more efficient for this case"⟩
  else if editCount ≤ 2 ∧ size < 20 * 1024 then
    ⟨.acceptable,
      "Few edits in small file - marginal efficiency benefit",
      some "read_file + write_file might be simpler for 1-2 changes",
      some "Modest efficiency gain, but atomic operation provides safety benefit"⟩
  else if 2 * editsNeedingSearch > editCount then
    ⟨.notRecommended,
      "Many edits require line number searches - will need multiple search_files calls",
      some "Use read_file to analyze content, then patch with known line numbers",
      some "Line number searches could make this less efficient than read_file + write_file"⟩
  else if size > 100 * 1024 ∧ editCount ≥ 3 then
    ⟨.stronglyRecommended,
      "Large file with multiple edits - significant efficiency gains",
      none,
      some ("~" ++
        toString (jsMathRoundFrac
          (200 * (size : Int) - 1000 * (editCount : Int) - 10000)
          (2 * (size : Int))) ++
        "% reduction in data transfer vs read_file + write_file")⟩
  else if editCount ≥ 3 ∧ size > 10 * 1024 then
    ⟨.recommended,
      "Multiple edits with atomic operation benefits",
      none,
      some "Good efficiency gains plus atomic safety and change tracking"⟩
  else if size > 50 * 1024 then
    ⟨.recommended,
      "Large file - patch reduces data transfer significantly",
      none,
      some ("Saves ~" ++
        toString (jsMathRoundFrac (100 * (size : Int) - 5120000) (size : Int)) ++
        "% data transfer vs full file read+write")⟩
  else
    ⟨.acceptable,
      "Standard patch operation - provides atomic safety benefits",
      none,
      some "Atomic operation with validation provides safety benefits"⟩

/-- Arguments of `edit_file_patch` as parsed by `execute` (response texts are
abstracted to their kind; the patch content and summaries are kept). -/
structure PatchArgs where
  edits : List PatchEdit
  validate_content : Option Bool
  create_backup : Option Bool
  force_execution : Option Bool
  check_efficiency : Option Bool
deriving DecidableEq

/-- Outcome kinds of `EditFilePatchTool.execute`, with the data each carries.
`efficiencyNoteOnly` is the `acceptable && !forceExecution` branch whose
message says "Proceeding with patch operation..." but which returns without
applying anything. -/
inductive PatchResponse where
  | efficiencyReport (g : UsageGuidance)
  | efficiencyBlocked (g : UsageGuidance)
  | efficiencyNoteOnly (g : UsageGuidance)
  | success (changesSummary : List String) (efficiencyNote : Option String)
  | errorResponse (msg : String)
deriving DecidableEq

/-- Did the execute call actually apply the edits and write the file? -/
def patchApplied (r : PatchResponse) : Bool :=
  match r with
  | .success _ _ => true
  | _ => false

/-- The `EditFilePatchTool.execute` (read-file.ts lines 112-234) for an existing,
sandbox-allowed file whose current content is `content`.  Returns the final
disk content of the target file and the response kind.  The optional backup
copy goes to a sibling path and never affects the target file. -/
def editFilePatchExecute (content : String) (args : PatchArgs) :
    String × PatchResponse :=
  let validateContent := jsNotFalse args.validate_content
  let forceExecution := jsOrBool args.force_execution false
  let checkEfficiency := jsOrBool args.check_efficiency false
  let lines := jsSplit content "\n"
  let guidance := analyzeUsageEfficiency (jsByteLength content) lines args.edits
  if checkEfficiency then
    (content, .efficiencyReport guidance)
  else if !forceExecution ∧ guidance.recommendation = .notRecommended then
    (content, .efficiencyBlocked guidance)
  else if guidance.recommendation = .acceptable ∧ !forceExecution then
    (content, .efficiencyNoteOnly guidance)
  else
    match patchLines lines args.edits validateContent with
    | .error msg => (content, .errorResponse msg)
    | .ok (modifiedLines, changesSummary) =>
      (jsJoin "\n" modifiedLines, .success changesSummary guidance.efficiencyNote)

/-- Default arguments: only `path` and `edits` supplied. -/
def defaultPatchArgs (edits : List PatchEdit) : PatchArgs :=
  ⟨edits, none, none, none, none⟩

/-- Is an `Except` value a success? -/
def exceptIsOk {ε α : Type} : Except ε α → Bool
  | .ok _ => true
  | .error _ => false

/-- The validation conditions of the claim, stated independently of the code:
required fields present (JS-truthy) and line references within the original
line count — `[1, totalLines]` for replace and single/multi delete,
`[0, totalLines]` for the insert field `after_line`. -/
def EditWellFormed (e : PatchEdit) (totalLines : Nat) : Prop :=
  match e.type with
  | .replace =>
    jsTruthyInt e.line = true ∧ jsTruthyStr e.new_ = true ∧
      1 ≤ e.line.getD 0 ∧ e.line.getD 0 ≤ (totalLines : Int)
  | .insert =>
    e.after_line ≠ none ∧ jsTruthyStr e.content = true ∧
      0 ≤ e.after_line.getD 0 ∧ e.after_line.getD 0 ≤ (totalLines : Int)
  | .delete =>
    (jsTruthyInt e.line = true ∧ 1 ≤ e.line.getD 0 ∧
        e.line.getD 0 ≤ (totalLines : Int)) ∨
      (jsTruthyInt e.line = false ∧ jsTruthyInt e.start_line = true ∧
        jsTruthyInt e.end_line = true ∧ 1 ≤ e.start_line.getD 0 ∧
        e.end_line.getD 0 ≤ (totalLines : Int) ∧
        e.start_line.getD 0 ≤ e.end_line.getD 0)

instance (e : PatchEdit) (n : Nat) : Decidable (EditWellFormed e n) := by
  unfold EditWellFormed
  match e.type with
  | .replace => exact inferInstance
  | .insert => exact inferInstance
  | .delete => exact inferInstance

/-! ## Model of the JavaScript `RegExp` collaborator

The engines hand pattern strings to the JS `RegExp` builtin.  The model
implements the fragment of JS regular expressions those strings can contain:
literal characters, backslash escapes, `.`, and the postfix quantifiers
`*`, `?`, `+`, plus the `^`/`$` anchors the glob translation wraps around a
pattern.  A quantifier with nothing to repeat is a `SyntaxError` (`none`),
exactly as in JS; the characters of unsupported constructs (groups, classes,
alternation, and interior anchors) are conservatively rejected as well, and
no theorem below evaluates the engine on such a pattern.  The `g` flag only
affects `lastIndex`, which the source resets after every match, so the model
keeps only the `i` flag. -/

inductive RAtom where
  | anyChar
  | lit (c : Char)
deriving DecidableEq

inductive RQuant where
  | one
  | star
  | opt
  | plus
deriving DecidableEq

/-- Parse the regex body into quantified atoms.  `pending` holds the last
atom, to which a following quantifier may attach; a quantifier without a
pending atom is the JS `SyntaxError: Nothing to repeat`. -/
def parseRxGo (pending : Option RAtom) (s : List Char) :
    Option (List (RAtom × RQuant)) :=
  match s with
  | [] =>
    match pending with
    | none => some []
    | some a => some [(a, RQuant.one)]
  | c :: rest =>
    if c = '*' then
      match pending with
      | some a => (parseRxGo none rest).map (fun ts => (a, RQuant.star) :: ts)
      | none => none
    else if c = '?' then
      match pending with
      | some a => (parseRxGo none rest).map (fun ts => (a, RQuant.opt) :: ts)
      | none => none
    else if c = '+' then
      match pending with
      | some a => (parseRxGo none rest).map (fun ts => (a, RQuant.plus) :: ts)
      | none => none
    else if c = '\\' then
      match rest with
      | [] => none
      | d :: rest2 =>
        match pending with
        | none => parseRxGo (some (RAtom.lit d)) rest2
        | some a =>
          (parseRxGo (some (RAtom.lit d)) rest2).map
            (fun ts => (a, RQuant.one) :: ts)
    else if c = '(' ∨ c = ')' ∨ c = '[' ∨ c = ']' ∨ c = '{' ∨ c = '}' ∨
        c = '|' ∨ c = '^' ∨ c = '$' then
      none
    else
      let a := if c = '.' then RAtom.anyChar else RAtom.lit c
      match pending with
      | none => parseRxGo (some a) rest
      | some b =>
        (parseRxGo (some a) rest).map (fun ts => (b, RQuant.one) :: ts)

/-- A compiled JS regular expression of the modelled fragment. -/
structure JsRegex where
  anchStart : Bool
  toks : List (RAtom × RQuant)
  anchEnd : Bool
  ignoreCase : Bool
deriving DecidableEq

/-- Compile a pattern string with the `i` flag setting; `none` is the JS
`SyntaxError`.  A leading `^` and an unescaped trailing `$` are the anchors
produced by the glob translation. -/
def jsRegexCompile (pattern : String) (ignoreCase : Bool) : Option JsRegex :=
  let p0 := pattern.data
  let startAnch := p0.head? = some '^'
  let p1 := if startAnch then p0.tail else p0
  let endInfo :=
    match p1.reverse with
    | '$' :: t2 => if t2.head? = some '\\' then (p1, false) else (t2.reverse, true)
    | _ => (p1, false)
  (parseRxGo none endInfo.1).map (fun ts => ⟨startAnch, ts, endInfo.2, ignoreCase⟩)

/-- Does an atom match one character (`.` does not match a newline)? -/
def atomMatch (ignoreCase : Bool) (a : RAtom) (c : Char) : Bool :=
  match a with
  | .anyChar => c ≠ '\n'
  | .lit d => if ignoreCase then d.toLower = c.toLower else d = c

/-- Backtracking matcher over quantified atoms.  `fuel` only makes the
recursion structural; every call strictly decreases
`toks.length + 2 * cs.length`, so the fuel of the wrapper is never exhausted. -/
def matchSeqFuel (ignoreCase mustEnd : Bool) :
    Nat → List (RAtom × RQuant) → List Char → Bool
  | 0, _, _ => false
  | _ + 1, [], cs => if mustEnd then cs.isEmpty else true
  | fuel + 1, (a, RQuant.one) :: ts, cs =>
    match cs with
    | [] => false
    | c :: cs2 => atomMatch ignoreCase a c && matchSeqFuel ignoreCase mustEnd fuel ts cs2
  | fuel + 1, (a, RQuant.opt) :: ts, cs =>
    matchSeqFuel ignoreCase mustEnd fuel ts cs ||
      (match cs with
       | [] => false
       | c :: cs2 => atomMatch ignoreCase a c &&
           matchSeqFuel ignoreCase mustEnd fuel ts cs2)
  | fuel + 1, (a, RQuant.star) :: ts, cs =>
    matchSeqFuel ignoreCase mustEnd fuel ts cs ||
      (match cs with
       | [] => false
       | c :: cs2 => atomMatch ignoreCase a c &&
           matchSeqFuel ignoreCase mustEnd fuel ((a, RQuant.star) :: ts) cs2)
  | fuel + 1, (a, RQuant.plus) :: ts, cs =>
    match cs with
    | [] => false
    | c :: cs2 => atomMatch ignoreCase a c &&
        matchSeqFuel ignoreCase mustEnd fuel ((a, RQuant.star) :: ts) cs2

/-- Match the token list against `cs` starting at its first position. -/
def reMatchFrom (ignoreCase mustEnd : Bool) (ts : List (RAtom × RQuant))
    (cs : List Char) : Bool :=
  matchSeqFuel ignoreCase mustEnd (ts.length + 2 * cs.length + 1) ts cs

/-- JS `regex.test(s)`: anchored patterns match at the forced position,
unanchored ones anywhere. -/
def jsRegexTest (r : JsRegex) (s : String) : Bool :=
  let cs := s.data
  if r.anchStart then reMatchFrom r.ignoreCase r.anchEnd r.toks cs
  else
    (List.range (cs.length + 1)).any
      (fun i => reMatchFrom r.ignoreCase r.anchEnd r.toks (cs.drop i))

/-- Glob-to-regex translation shared by the name-pattern compilers: escape
the regex metacharacters `. + ^ $ { } ( ) | [ ] \\`, then `*` becomes `.*`
and `?` becomes `.`. -/
def globTranslate (pat : List Char) : List Char :=
  pat.foldr
    (fun c acc =>
      if c = '.' ∨ c = '+' ∨ c = '^' ∨ c = '$' ∨ c = '{' ∨ c = '}' ∨
          c = '(' ∨ c = ')' ∨ c = '|' ∨ c = '[' ∨ c = ']' ∨ c = '\\' then
        '\\' :: c :: acc
      else if c = '*' then '.' :: '*' :: acc
      else if c = '?' then '.' :: acc
      else c :: acc)
    []

/-! ## `searchFileContent` (search-files.ts lines 275-326) -/

/-- One content match: 1-based line number, trimmed line text, optional
context block. -/
structure ContentMatch where
  line : Nat
  content : String
  context : Option String
deriving DecidableEq

/-- The context block for a match at index `i`: the trimmed neighbours at
`max(0, i-1) .. min(len-1, i+1)` other than `i` itself, each prefixed with
its 1-based line number, joined by newlines; `none` when empty or when
`showContext` is off. -/
def buildContext (allLines : List String) (i : Nat) (showContext : Bool) :
    Option String :=
  if !showContext then none
  else
    let start := i - 1
    let stop := min (allLines.length - 1) (i + 1)
    let ctxLines :=
      ((List.range allLines.length).filter
        (fun j => start ≤ j ∧ j ≤ stop ∧ j ≠ i)).map
        (fun j => toString (j + 1) ++ ": " ++ jsTrim (allLines.getD j ""))
    if ctxLines.isEmpty then none else some (jsJoin "\n" ctxLines)

/-- The scan loop of `searchFileContent`: test each line afresh (the source
resets `lastIndex` after every hit, so the `g` flag is inert). -/
def searchContentGo (r : JsRegex) (showContext : Bool)
    (allLines : List String) : List String → Nat → List ContentMatch
  | [], _ => []
  | l :: rest, i =>
    (if jsRegexTest r l then
      [⟨i + 1, jsTrim l, buildContext allLines i showContext⟩]
     else []) ++ searchContentGo r showContext allLines rest (i + 1)

/-- The `searchFileContent`: `none` file content models an unreadable file
(`fs.readFile` threw); the pattern is compiled directly as
`new RegExp(searchText, caseSensitive ? "g" : "gi")`, and a `SyntaxError`
is swallowed by the surrounding try/catch, yielding no matches at all. -/
def searchFileContent (fileContent : Option String) (searchText : String)
    (caseSensitive showContext : Bool) : List ContentMatch :=
  match fileContent with
  | none => []
  | some content =>
    match jsRegexCompile searchText (!caseSensitive) with
    | none => []
    | some r =>
      let lines := jsSplit content "\n"
      searchContentGo r showContext lines lines 0

/-- Modelled from the spec (section 4.3, PatternMatcher), for comparison with
the code: the three-form content query compiler the spec describes — a
`/body/flags` string is a raw regex with those flags, a string containing
`*`/`?` is an unanchored glob, anything else (and any invalid regex) is a
case-insensitive-unless-overridden literal substring. -/
def contentQueryMatchSpec (query : String) (caseSensitive : Bool)
    (text : String) : Bool :=
  let substrMatch :=
    if caseSensitive then jsIncludes text query
    else jsIncludes (jsToLower text) (jsToLower query)
  match query.data with
  | '/' :: rest =>
    match (rest.reverse.takeWhile (fun c => c ≠ '/')).reverse,
        rest.reverse.dropWhile (fun c => c ≠ '/') with
    | flags, '/' :: bodyRev =>
      let body := bodyRev.reverse
      match jsRegexCompile (String.mk body) (flags.contains 'i') with
      | some r => jsRegexTest r text
      | none => substrMatch
    | _, _ =>
      if query.data.contains '*' ∨ query.data.contains '?' then
        match jsRegexCompile (String.mk (globTranslate query.data))
            (!caseSensitive) with
        | some r => jsRegexTest r text
        | none => substrMatch
      else substrMatch
  | _ =>
    if query.data.contains '*' ∨ query.data.contains '?' then
      match jsRegexCompile (String.mk (globTranslate query.data))
          (!caseSensitive) with
      | some r => jsRegexTest r text
      | none => substrMatch
    else substrMatch

/-! ## Filesystem state model for the directory tools

A filesystem is a tree of directories and files; paths are the segment lists
of the already-resolved absolute paths the tools compute with `path.resolve`
(so the string test `resolvedDestination.startsWith(resolvedSource +
path.sep)` is the strict segment-prefix test).  Timestamps are outside the
model; file identity is content.  Failing syscalls are `none`. -/

inductive FSNode where
  | file (content : String)
  | dir (entries : List (String × FSNode))

/-- Find a directory entry by name. -/
def entriesLookup : List (String × FSNode) → String → Option FSNode
  | [], _ => none
  | (n, node) :: rest, name =>
    if n = name then some node else entriesLookup rest name

/-- Replace (or append) a directory entry. -/
def entriesSet : List (String × FSNode) → String → FSNode →
    List (String × FSNode)
  | [], name, node => [(name, node)]
  | (n, old) :: rest, name, node =>
    if n = name then (n, node) :: rest else (n, old) :: entriesSet rest name node

/-- Remove a directory entry by name. -/
def entriesRemove (es : List (String × FSNode)) (name : String) :
    List (String × FSNode) :=
  es.filter (fun p => p.1 != name)

/-- The `fs.stat`/existence: the node at a path, if any. -/
def fsLookup : List String → FSNode → Option FSNode
  | [], node => some node
  | _ :: _, FSNode.file _ => none
  | name :: rest, FSNode.dir es =>
    match entriesLookup es name with
    | some child => fsLookup rest child
    | none => none

/-- The `fs.mkdir(p, { recursive: true })`: create the directory chain; succeeds
on an existing directory, fails (`none`) when a component is a file. -/
def fsMkdirp : List String → FSNode → Option FSNode
  | [], FSNode.dir es => some (FSNode.dir es)
  | [], FSNode.file _ => none
  | _ :: _, FSNode.file _ => none
  | name :: rest, FSNode.dir es =>
    match entriesLookup es name with
    | some child =>
      (fsMkdirp rest child).map (fun ch => FSNode.dir (entriesSet es name ch))
    | none =>
      (fsMkdirp rest (FSNode.dir [])).map
        (fun ch => FSNode.dir (entriesSet es name ch))

/-- Place a node at a path: the parent chain must exist and be directories
(`ENOENT`/`ENOTDIR` otherwise); an existing file is replaced, an existing
directory is a failure (`EISDIR`/`ENOTEMPTY`). -/
def fsPutNode : List String → FSNode → FSNode → Option FSNode
  | [], _, _ => none
  | _ :: _, _, FSNode.file _ => none
  | name :: rest, newNode, FSNode.dir es =>
    match rest with
    | [] =>
      match entriesLookup es name with
      | some (FSNode.dir _) => none
      | _ => some (FSNode.dir (entriesSet es name newNode))
    | _ :: _ =>
      match entriesLookup es name with
      | some child =>
        (fsPutNode rest newNode child).map
          (fun ch => FSNode.dir (entriesSet es name ch))
      | none => none

/-- The `fs.copyFile(src, dst)`: the source must be a file; the copy lands at
`dst` under an existing parent directory. -/
def fsCopyFile (root : FSNode) (src dst : List String) : Option FSNode :=
  match fsLookup src root with
  | some (FSNode.file c) => fsPutNode dst (FSNode.file c) root
  | _ => none

/-- The `fs.rm(p, { recursive: true, force: true })`: remove the subtree;
missing targets are ignored. -/
def fsRm : List String → FSNode → FSNode
  | [], node => node
  | _ :: _, FSNode.file c => FSNode.file c
  | name :: rest, FSNode.dir es =>
    match rest with
    | [] => FSNode.dir (entriesRemove es name)
    | _ :: _ =>
      match entriesLookup es name with
      | some child => FSNode.dir (entriesSet es name (fsRm rest child))
      | none => FSNode.dir es

/-- The `fs.rmdir(p)`: remove an empty directory; any other case fails. -/
def fsRmdirIfEmpty : List String → FSNode → Option FSNode
  | [], _ => none
  | _ :: _, FSNode.file _ => none
  | name :: rest, FSNode.dir es =>
    match rest with
    | [] =>
      match entriesLookup es name with
      | some (FSNode.dir []) => some (FSNode.dir (entriesRemove es name))
      | _ => none
    | _ :: _ =>
      match entriesLookup es name with
      | some child =>
        (fsRmdirIfEmpty rest child).map
          (fun ch => FSNode.dir (entriesSet es name ch))
      | none => none

/-- The `fs.rename(src, dst)`: fails when `dst` is inside (or equal to) `src` or
`src` is missing; a directory can only be renamed to a fresh path; a file
replaces an existing file but cannot land on a directory. -/
def fsRename (root : FSNode) (src dst : List String) : Option FSNode :=
  if src.isPrefixOf dst then none
  else
    match fsLookup src root with
    | none => none
    | some n =>
      match n with
      | FSNode.dir _ =>
        if (fsLookup dst root).isSome then none
        else fsPutNode dst n (fsRm src root)
      | FSNode.file _ => fsPutNode dst n (fsRm src root)

/-! ## BulkCopyEngine: `copy_directory`
(tools/filesystem/directory/copy-directory.ts) -/

/-- The request options of `copy_directory` after defaulting. -/
structure CopyOptions where
  recursive : Bool
  overwrite : Bool
  includePatterns : List String
  excludePatterns : List String
  preserveTimestamps : Bool
  maxDepth : Int
deriving DecidableEq

/-- The running counters (the lowercase `filescopied` typo is the
source). -/
structure CopyStats where
  filescopied : Nat
  directoriesCreated : Nat
  filesSkipped : Nat
  totalSize : Nat
deriving DecidableEq

def statsAddDir (s : CopyStats) : CopyStats :=
  ⟨s.filescopied, s.directoriesCreated + 1, s.filesSkipped, s.totalSize⟩

def statsAddSkip (s : CopyStats) : CopyStats :=
  ⟨s.filescopied, s.directoriesCreated, s.filesSkipped + 1, s.totalSize⟩

def statsAddCopy (s : CopyStats) (bytes : Nat) : CopyStats :=
  ⟨s.filescopied + 1, s.directoriesCreated, s.filesSkipped, s.totalSize + bytes⟩

/-- The `matchesPattern` of the copy tool: glob translated to an anchored regex
compiled with the `i` flag (the translation always yields a valid
pattern). -/
def copyMatchesPattern (fileName pattern : String) : Bool :=
  match jsRegexCompile ("^" ++ String.mk (globTranslate pattern.data) ++ "$")
      true with
  | some r => jsRegexTest r fileName
  | none => false

/-- The `shouldIncludeFile`: at least one include pattern (when any are given)
and no exclude pattern may match. -/
def copyShouldIncludeFile (fileName : String)
    (includePatterns excludePatterns : List String) : Bool :=
  if includePatterns.length > 0 &&
      !(includePatterns.any (fun p => copyMatchesPattern fileName p)) then
    false
  else if excludePatterns.length > 0 &&
      excludePatterns.any (fun p => copyMatchesPattern fileName p) then
    false
  else true

/-- The `copyDirectoryRecursive`.  The returned Bool is `false` when an I/O error
was thrown (the filesystem keeps the mutations made so far).  The structural
`fuel` is `maxDepth + 1 - depth` under the calling convention of the wrapper, so
fuel 0 coincides with the `depth > maxDepth` guard and returns the same
result; the guard itself is kept verbatim.  Timestamp preservation
(`fs.utimes`) has no observable effect in the model. -/
def copyDirRec (allowed : List String → Bool) (opts : CopyOptions) :
    Nat → List String → List String → Int → FSNode → CopyStats →
    FSNode × CopyStats × Bool
  | 0, _, _, _, fs, stats => (fs, stats, true)
  | fuel + 1, sourceDir, destDir, depth, fs, stats =>
    if depth > opts.maxDepth then (fs, stats, true)
    else
      let afterMkdir :=
        match fsMkdirp destDir fs with
        | some fs2 => (fs2, statsAddDir stats)
        | none => (fs, stats)
      match fsLookup sourceDir afterMkdir.1 with
      | some (FSNode.dir entries) =>
        entries.foldl
          (fun acc entry =>
            match acc with
            | (fsA, statsA, false) => (fsA, statsA, false)
            | (fsA, statsA, true) =>
              let sourcePath := sourceDir ++ [entry.1]
              let destPath := destDir ++ [entry.1]
              if !allowed sourcePath || !allowed destPath then
                (fsA, statsA, true)
              else
                match entry.2 with
                | FSNode.dir _ =>
                  if opts.recursive then
                    copyDirRec allowed opts fuel sourcePath destPath
                      (depth + 1) fsA statsA
                  else (fsA, statsA, true)
                | FSNode.file _ =>
                  if !copyShouldIncludeFile entry.1 opts.includePatterns
                      opts.excludePatterns then
                    (fsA, statsAddSkip statsA, true)
                  else if !opts.overwrite && (fsLookup destPath fsA).isSome then
                    (fsA, statsAddSkip statsA, true)
                  else
                    match fsCopyFile fsA sourcePath destPath with
                    | none => (fsA, statsA, false)
                    | some fsB =>
                      match fsLookup destPath fsB with
                      | some (FSNode.file c) =>
                        (fsB, statsAddCopy statsA (jsByteLength c), true)
                      | _ => (fsB, statsA, false))
          (afterMkdir.1, afterMkdir.2, true)
      | _ => (afterMkdir.1, afterMkdir.2, false)

/-- Outcome of `copy_directory` (messages abstracted to their kind). -/
inductive CopyResult where
  | success (stats : CopyStats)
  | errorResponse (msg : String)
deriving DecidableEq

/-- The `CopyDirectoryTool.execute` (copy-directory.ts lines 61-143).  Note: the
`Destination exists and is not a directory` throw sits inside a try whose
catch ignores everything, so the destination type check has no effect; the
inner `Source is not a directory` throw is likewise replaced by the catch
with the `does not exist` message. -/
def copyDirectoryExecute (allowed : List String → Bool) (fs : FSNode)
    (source destination : List String) (opts : CopyOptions) :
    FSNode × CopyResult :=
  if !allowed source then
    (fs, .errorResponse "Access denied to source")
  else if !allowed destination then
    (fs, .errorResponse "Access denied to destination")
  else
    match fsLookup source fs with
    | some (FSNode.dir _) =>
      if source.isPrefixOf destination ∧ source ≠ destination then
        (fs, .errorResponse "Cannot copy directory into itself")
      else
        match copyDirRec allowed opts (opts.maxDepth + 1).toNat source
            destination 0 fs ⟨0, 0, 0, 0⟩ with
        | (fs2, stats, true) => (fs2, .success stats)
        | (fs2, _, false) => (fs2, .errorResponse "IO error during copy")
    | _ => (fs, .errorResponse "Source directory does not exist")

/-- The defaulted options of a bare `copy_directory` request. -/
def defaultCopyOptions : CopyOptions :=
  ⟨true, false, [], [], true, 50⟩

/-! ## BulkMoveMergeEngine: `move_directory`
(tools/filesystem/directory/move-directory.ts, src/unnamed/part_003) -/

/-- The merge counters. -/
structure MoveStats where
  filesMoved : Nat
  directoriesMoved : Nat
  filesSkipped : Nat
deriving DecidableEq

def msAddMove (s : MoveStats) : MoveStats :=
  ⟨s.filesMoved + 1, s.directoriesMoved, s.filesSkipped⟩

def msAddDir (s : MoveStats) : MoveStats :=
  ⟨s.filesMoved, s.directoriesMoved + 1, s.filesSkipped⟩

def msAddSkip (s : MoveStats) : MoveStats :=
  ⟨s.filesMoved, s.directoriesMoved, s.filesSkipped + 1⟩

/-- The `mergeDirectoryRecursive`.  The third component carries a thrown error
(the filesystem keeps the mutations made so far).  The source recursion has
no depth guard; `fuel` is a model artifact making it structural, and running
out of fuel is reported as a distinguished error that no instance used by a theorem
reaches. -/
def mergeRec (allowed : List String → Bool) (overwriteFiles : Bool) :
    Nat → List String → List String → FSNode → MoveStats →
    FSNode × MoveStats × Option String
  | 0, _, _, fs, stats => (fs, stats, some "model: merge fuel exhausted")
  | fuel + 1, sourceDir, destDir, fs, stats =>
    match fsLookup sourceDir fs with
    | some (FSNode.dir entries) =>
      entries.foldl
        (fun acc entry =>
          match acc with
          | (fsA, statsA, some e) => (fsA, statsA, some e)
          | (fsA, statsA, none) =>
            let sourcePath := sourceDir ++ [entry.1]
            let destPath := destDir ++ [entry.1]
            if !allowed sourcePath || !allowed destPath then
              (fsA, statsA, none)
            else
              match entry.2 with
              | FSNode.dir _ =>
                let afterMkdir :=
                  match fsMkdirp destPath fsA with
                  | some fsB => (fsB, msAddDir statsA)
                  | none => (fsA, statsA)
                match mergeRec allowed overwriteFiles fuel sourcePath destPath
                    afterMkdir.1 afterMkdir.2 with
                | (fsC, statsC, some e) => (fsC, statsC, some e)
                | (fsC, statsC, none) =>
                  match fsRmdirIfEmpty sourcePath fsC with
                  | some fsD => (fsD, statsC, none)
                  | none => (fsC, statsC, none)
              | FSNode.file _ =>
                if (fsLookup destPath fsA).isSome && !overwriteFiles then
                  (fsA, msAddSkip statsA, none)
                else
                  match fsMkdirp destPath.dropLast fsA with
                  | none => (fsA, statsA, some "mkdir failed")
                  | some fsB =>
                    match fsRename fsB sourcePath destPath with
                    | none => (fsB, statsA, some "rename failed")
                    | some fsC => (fsC, msAddMove statsA, none))
        (fs, stats, none)
    | _ => (fs, stats, some "readdir failed")

/-- Outcome of `move_directory` (messages abstracted to their kind). -/
inductive MoveResult where
  | atomicMove
  | mergeDone (stats : MoveStats)
  | errorResponse (msg : String)
deriving DecidableEq

/-- The `MoveDirectoryTool.execute` (move-directory.ts lines 42-135).
`mergeFuel` is the recursion capacity of the model for the unbounded source
recursion; any value at least the source-tree depth is faithful.  The
`not a directory` throw of the destination stat is swallowed by the catch (which
re-throws only the merge-conflict error), so the conflict error fires only
for an existing destination *directory*, and an existing destination file
falls through with `destinationExists = true`. -/
def moveDirectoryExecute (allowed : List String → Bool) (mergeFuel : Nat)
    (fs : FSNode) (source destination : List String)
    (mergeExisting overwriteFiles : Bool) : FSNode × MoveResult :=
  if !allowed source then
    (fs, .errorResponse "Access denied to source")
  else if !allowed destination then
    (fs, .errorResponse "Access denied to destination")
  else
    match fsLookup source fs with
    | some (FSNode.dir _) =>
      if (source.isPrefixOf destination ∧ source ≠ destination) ∨
          destination = source then
        (fs, .errorResponse "Cannot move directory into itself")
      else
        let destNode := fsLookup destination fs
        let destIsDir := match destNode with
          | some (FSNode.dir _) => true
          | _ => false
        if destIsDir && !mergeExisting then
          (fs, .errorResponse
            "Destination directory already exists (use merge_existing=true to merge)")
        else if destNode.isSome && mergeExisting then
          match mergeRec allowed overwriteFiles mergeFuel source destination
              fs ⟨0, 0, 0⟩ with
          | (fs2, _, some e) => (fs2, .errorResponse e)
          | (fs2, stats, none) => (fsRm source fs2, .mergeDone stats)
        else
          match fsMkdirp destination.dropLast fs with
          | none => (fs, .errorResponse "mkdir failed")
          | some fs2 =>
            match fsRename fs2 source destination with
            | none => (fs2, .errorResponse "rename failed")
            | some fs3 => (fs3, .atomicMove)
    | _ => (fs, .errorResponse "Source directory does not exist")

/-! ## SearchEngine: `search_files`
(tools/filesystem/directory/search-files.ts)

The directory graph is given by canonical (symlink-resolved) directory
identities: `dirs id` lists the entries of the directory whose canonical
path is `id`, and a subdirectory entry carries the canonical identity its
(possibly symlinked) name resolves to — `fs.realpath` of the walked path is
that identity.  Cycles through symlinks are graphs where a `target`
points back to an ancestor.  File sizes are byte lengths; `mtime` is carried
by the source but never observable in the response, so it is omitted. -/

inductive SEntry where
  | dirEntry (name : String) (target : Nat)
  | fileEntry (name : String) (content : String)

structure SFS where
  dirs : Nat → List SEntry

/-- The search options after the defaulting in `execute`. -/
structure SearchOpts where
  pattern : Option String
  content : Option String
  fileType : Option String
  includeHidden : Bool
  maxDepth : Int
  caseSensitive : Bool
  showContext : Bool
  maxResults : Int
deriving DecidableEq

inductive SRKind where
  | fileKind
  | dirKind
deriving DecidableEq

/-- One search result (`SearchResult` of the source, minus the inert
`modified` field).  The source field `matches` is a reserved token in Lean,
hence the trailing underscore. -/
structure SearchResult where
  file : String
  type : SRKind
  size : Option Nat
  matches_ : Option (List ContentMatch)
deriving DecidableEq

/-- The `path.extname(fileName).slice(1)`: the text after the last dot, empty
for dotless names, leading-dot names and trailing dots. -/
def extAfterDot (fileName : String) : String :=
  let rev := fileName.data.reverse
  let pre := rev.takeWhile (fun c => c ≠ '.')
  if pre.length = rev.length then ""
  else if pre.length + 1 = rev.length then ""
  else String.mk pre.reverse

/-- The `matchesPattern` of the search tool: missing/empty pattern matches
everything; otherwise both sides are lowercased unless case-sensitive and
the glob is compiled to an anchored regex (always valid). -/
def searchMatchesPattern (fileName : String) (pattern : Option String)
    (caseSensitive : Bool) : Bool :=
  if !jsTruthyStr pattern then true
  else
    let name := if caseSensitive then fileName else jsToLower fileName
    let pat := if caseSensitive then pattern.getD ""
      else jsToLower (pattern.getD "")
    match jsRegexCompile ("^" ++ String.mk (globTranslate pat.data) ++ "$")
        false with
    | some r => jsRegexTest r name
    | none => false

/-- The `shouldIncludeFile` of the search tool: extension filter, then name
pattern. -/
def searchShouldIncludeFile (fileName : String) (opts : SearchOpts) : Bool :=
  (if jsTruthyStr opts.fileType then
    jsToLower (extAfterDot fileName) = jsToLower (opts.fileType.getD "")
   else true) &&
  (if jsTruthyStr opts.pattern then
    searchMatchesPattern fileName opts.pattern opts.caseSensitive
   else true)

/-- Accumulator of the recursive walk: results, visited set (canonical
ids), and the ghost trace of directories whose entries were read (the
trace observes `fs.readdir` calls and is dropped by the wrapper). -/
abbrev WalkAcc := List SearchResult × List Nat × List Nat

/-- The body of the entry loop of `searchRecursive` for one entry.
`recurse` is the recursive call at the next depth. -/
def searchStep (fs : SFS) (opts : SearchOpts) (allowed : String → Bool)
    (recurse : Nat → String → String → List SearchResult → List Nat → Int →
      WalkAcc)
    (depth : Int) (absPath relPrefix : String)
    (acc : WalkAcc) (entry : SEntry) : WalkAcc :=
  let resultsA := acc.1
  let visitedA := acc.2.1
  let traceA := acc.2.2
  if (resultsA.length : Int) ≥ opts.maxResults then acc
  else
    let name := match entry with
      | .dirEntry n _ => n
      | .fileEntry n _ => n
    let fullAbs := absPath ++ "/" ++ name
    if !allowed fullAbs then acc
    else if !opts.includeHidden && jsStartsWith name "." then acc
    else
      let rel := if relPrefix = "" then name else relPrefix ++ "/" ++ name
      match entry with
      | .dirEntry _ target =>
        let resultsB :=
          if searchMatchesPattern name opts.pattern opts.caseSensitive then
            resultsA ++ [⟨rel, SRKind.dirKind, none, none⟩]
          else resultsA
        let sub := recurse target fullAbs rel resultsB visitedA (depth + 1)
        (sub.1, sub.2.1, traceA ++ sub.2.2)
      | .fileEntry _ content =>
        if searchShouldIncludeFile name opts then
          if jsTruthyStr opts.content then
            let ms := searchFileContent (some content) (opts.content.getD "")
              opts.caseSensitive opts.showContext
            if ms.length > 0 then
              (resultsA ++
                [⟨rel, SRKind.fileKind, some (jsByteLength content), some ms⟩],
               visitedA, traceA)
            else acc
          else
            (resultsA ++
              [⟨rel, SRKind.fileKind, some (jsByteLength content), none⟩],
             visitedA, traceA)
        else acc

/-- The `searchRecursive` (search-files.ts lines 158-241).  The structural
`fuel` is `maxDepth + 1 - depth` under the convention of the wrapper, so fuel 0
coincides with the `depth > maxDepth` guard and returns the same value.
The canonical id of the walked directory is checked against the visited set
and added before its entries are processed; the trace records the processed
directories. -/
def searchRec (fs : SFS) (opts : SearchOpts) (allowed : String → Bool) :
    Nat → Nat → String → String → List SearchResult → List Nat → Int →
    WalkAcc
  | 0, _, _, _, results, visited, _ => (results, visited, [])
  | fuel + 1, curId, absPath, relPrefix, results, visited, depth =>
    if depth > opts.maxDepth ∨ (results.length : Int) ≥ opts.maxResults then
      (results, visited, [])
    else if visited.contains curId then (results, visited, [])
    else
      (fs.dirs curId).foldl
        (searchStep fs opts allowed
          (fun tgt abs2 rel2 res2 vis2 d2 =>
            searchRec fs opts allowed fuel tgt abs2 rel2 res2 vis2 d2)
          depth absPath relPrefix)
        (results, curId :: visited, [curId])

/-- The result comparator of `searchFiles` (lines 145-155). -/
def searchResultsCmp (a b : SearchResult) : Int :=
  if a.matches_.isSome && (a.matches_.getD []).length > 0 &&
      (!b.matches_.isSome || (b.matches_.getD []).length = 0) then -1
  else if b.matches_.isSome && (b.matches_.getD []).length > 0 &&
      (!a.matches_.isSome || (a.matches_.getD []).length = 0) then 1
  else if a.matches_.isSome && b.matches_.isSome then
    ((b.matches_.getD []).length : Int) - ((a.matches_.getD []).length : Int)
  else jsLocaleCompare a.file b.file

/-- The `results.sort(...)`: the ES2019 `Array.prototype.sort` is stable, and
the comparator is consistent on the results the walk produces, so the
model is a stable insertion sort with `le a b ↔ cmp a b ≤ 0`. -/
def sortResults (rs : List SearchResult) : List SearchResult :=
  insertionSortBy (fun a b => searchResultsCmp a b ≤ 0) rs

/-- The `searchFiles`: walk from the base directory with a fresh visited set,
sort, and truncate to `maxResults`.  Also returns the ghost trace. -/
def searchFilesModel (fs : SFS) (opts : SearchOpts) (allowed : String → Bool)
    (rootId : Nat) (rootAbs : String) : List SearchResult × List Nat :=
  let r := searchRec fs opts allowed (opts.maxDepth + 1).toNat rootId rootAbs
    "" [] [] 0
  ((sortResults r.1).take opts.maxResults.toNat, r.2.2)

/-- Truthiness of an optional JS number holding a Nat (0 falsy). -/
def jsTruthyNat (o : Option Nat) : Bool :=
  match o with
  | none => false
  | some n => n != 0

/-- The `(bytes/den).toFixed(1)` for a positive power-of-1024 denominator,
computed on the exact rational (round half up). -/
def toFixed1Frac (bytes den : Nat) : String :=
  let n10 := (10 * bytes * 2 + den) / (2 * den)
  toString (n10 / 10) ++ "." ++ toString (n10 % 10)

/-- The `formatFileSize` of the search tool (identical in the copy tool). -/
def formatFileSize (bytes : Nat) : String :=
  if bytes < 1024 then toString bytes ++ "B"
  else if bytes < 1024 * 1024 then toFixed1Frac bytes 1024 ++ "KB"
  else if bytes < 1024 * 1024 * 1024 then
    toFixed1Frac bytes (1024 * 1024) ++ "MB"
  else toFixed1Frac bytes (1024 * 1024 * 1024) ++ "GB"

/-- The raw `search_files` request arguments. -/
structure SearchArgs where
  directory : Option String
  pattern : Option String
  content : Option String
  file_type : Option String
  include_hidden : Option Bool
  max_depth : Option Int
  case_sensitive : Option Bool
  show_context : Option Bool
  max_results : Option Int
deriving DecidableEq

/-- The defaulting block at the top of `SearchFilesTool.execute` (lines
79-88); in particular `show_context` is `args.show_context as boolean ||
true`. -/
def searchOptsOfArgs (args : SearchArgs) : SearchOpts :=
  ⟨args.pattern, args.content, args.file_type,
   jsOrBool args.include_hidden false,
   jsOrInt args.max_depth 10,
   jsOrBool args.case_sensitive false,
   jsOrBool args.show_context true,
   jsOrInt args.max_results 100⟩

/-- Replace only the `show_context` field of a request. -/
def setShowContext (a : SearchArgs) (b : Option Bool) : SearchArgs :=
  ⟨a.directory, a.pattern, a.content, a.file_type, a.include_hidden,
   a.max_depth, a.case_sensitive, b, a.max_results⟩

/-- The per-match lines of `formatResults`: the match line, and the context
block only when the match has a context AND the raw `args.show_context` is
truthy. -/
def formatMatchLine (args : SearchArgs) (m : ContentMatch) : List String :=
  ["    Line " ++ toString m.line ++ ": " ++ m.content] ++
  (if jsTruthyStr m.context && jsTruthyBool args.show_context then
    ["    Context:\n" ++ jsJoin "\n"
      ((jsSplit (m.context.getD "") "\n").map (fun l => "      " ++ l))]
   else [])

/-- The per-file lines of `formatResults`. -/
def formatFileBlock (hasContentSearch : Bool) (args : SearchArgs)
    (f : SearchResult) : List String :=
  let sizeStr := if jsTruthyNat f.size then
    " (" ++ formatFileSize (f.size.getD 0) ++ ")" else ""
  let matchStr := match f.matches_ with
    | some ms => " [" ++ toString ms.length ++ " matches]"
    | none => ""
  ["  " ++ f.file ++ sizeStr ++ matchStr] ++
  (if hasContentSearch && f.matches_.isSome &&
      (f.matches_.getD []).length > 0 then
    ((f.matches_.getD []).take 3).foldl
      (fun acc m => acc ++ formatMatchLine args m) [] ++
    (if (f.matches_.getD []).length > 3 then
      ["    ... and " ++ toString ((f.matches_.getD []).length - 3) ++
        " more matches"]
     else []) ++ [""]
   else [])

/-- The `formatResults` (search-files.ts lines 328-376); the two group headers
are the literal (mojibake) strings of the source. -/
def formatResults (results : List SearchResult) (args : SearchArgs) :
    String :=
  if results.length = 0 then "No files found matching the search criteria."
  else
    let hasContentSearch := jsTruthyStr args.content
    let files := results.filter (fun r => r.type == SRKind.fileKind)
    let directories := results.filter (fun r => r.type == SRKind.dirKind)
    let header := "Found " ++ toString results.length ++ " " ++
      (if (match args.max_results with
           | some m => (((results.length : Int) == m) : Bool)
           | none => false) then "(limited)" else "") ++ " results:\n"
    let dirBlock :=
      if directories.length > 0 then
        ["ðŸ“ DIRECTORIES:"] ++
          directories.map (fun d => "  " ++ d.file ++ "/") ++ [""]
      else []
    let fileBlock :=
      if files.length > 0 then
        ["ðŸ“„ FILES:"] ++
          files.foldl (fun acc f =>
            acc ++ formatFileBlock hasContentSearch args f) []
      else []
    let footer :=
      ["---",
       "Summary: " ++ toString files.length ++ " files, " ++
         toString directories.length ++ " directories"] ++
      (if hasContentSearch then
        ["Total content matches: " ++
          toString (files.foldl
            (fun s f => s + (f.matches_.getD []).length) 0)]
       else [])
    jsJoin "\n" ([header] ++ dirBlock ++ fileBlock ++ footer)

/-- The `SearchFilesTool.execute` response for an existing allowed base
directory: run the search with the defaulted options and format. -/
def searchFilesExecute (fs : SFS) (args : SearchArgs)
    (allowed : String → Bool) (rootId : Nat) (rootAbs : String) : String :=
  formatResults
    (searchFilesModel fs (searchOptsOfArgs args) allowed rootId rootAbs).1
    args

/-- Drop the context of a content match. -/
def stripContextMatch (m : ContentMatch) : ContentMatch :=
  ⟨m.line, m.content, none⟩

/-- Drop all contexts of a search result. -/
def stripContextRes (r : SearchResult) : SearchResult :=
  ⟨r.file, r.type, r.size, r.matches_.map (fun ms => ms.map stripContextMatch)⟩

/-- The invariant of one walk call: the trace of processed directories is
duplicate-free, disjoint from the incoming visited set, and the outgoing
visited set is exactly trace plus incoming. -/
def TraceSpec (visited : List Nat) (r : WalkAcc) : Prop :=
  (∀ x ∈ r.2.2, x ∉ visited) ∧ r.2.2.Nodup ∧
    (∀ x, x ∈ r.2.1 ↔ x ∈ r.2.2 ∨ x ∈ visited)

/-- A well-formed result: a present match list is non-empty (exactly what
the walk produces). -/
def ResWF (r : SearchResult) : Prop :=
  ∀ ms, r.matches_ = some ms → ms ≠ []

/-- Does the result have content matches (the recurring condition
of the comparator)? -/
def resHasM (r : SearchResult) : Bool :=
  r.matches_.isSome && (r.matches_.getD []).length > 0

/-- All results in a list are well-formed. -/
def ResultsWF (rs : List SearchResult) : Prop :=
  ∀ r ∈ rs, ResWF r

/-- Claim C1: the `isPathAllowed` of the code uses a plain string-prefix test, so
with the single configured root `/allowed-dir` it accepts `/allowed-dir2`,
while the separator-aligned ancestor test demanded by the claim (and by the
server README section "restricted to allowed directories only") rejects it.  This
evaluates the code at the failing input. -/
theorem C1_isPathAllowed_accepts_sibling_directory :
    isPathAllowed ["/allowed-dir"] "/" "/allowed-dir2" = true ∧
    isPathAllowedSeparatorAligned ["/allowed-dir"] "/" "/allowed-dir2" =
      false := by
  constructor
  · rfl
  · rfl

/-- A single edit passes `validateOne` exactly when it is well-formed in the
sense of the claim. -/
theorem validateOne_none_iff (e : PatchEdit) (n : Nat) :
    validateOne e n = none ↔ EditWellFormed e n := by
  rcases e with ⟨ty, l, al, sl, el, o, nw, ct⟩
  cases ty
  · simp only [validateOne, EditWellFormed]
    cases hl : jsTruthyInt l <;> cases hn : jsTruthyStr nw <;>
      simp [hl, hn]
  · simp only [validateOne, EditWellFormed]
    cases ha : decide (al = none) <;> cases hc : jsTruthyStr ct <;>
      simp_all
  · simp only [validateOne, EditWellFormed]
    cases hl : jsTruthyInt l <;> cases hs : jsTruthyInt sl <;>
      cases he : jsTruthyInt el <;> simp [hl, hs, he] <;> omega

/-- The `validateEdits` succeeds exactly when every edit in the batch is
well-formed against the original line count. -/
theorem validateEdits_isOk_iff (edits : List PatchEdit) (n : Nat) :
    exceptIsOk (validateEdits edits n) = true ↔
      ∀ e ∈ edits, EditWellFormed e n := by
  induction edits with
  | nil => simp [validateEdits, exceptIsOk]
  | cons e rest ih =>
    simp only [validateEdits]
    cases hv : validateOne e n with
    | some err =>
      simp only [exceptIsOk, List.mem_cons]
      constructor
      · intro h
        exact absurd h (by simp)
      · intro h
        have := (validateOne_none_iff e n).mpr (h e (Or.inl rfl))
        rw [hv] at this
        exact absurd this (by simp)
    | none =>
      have hwf := (validateOne_none_iff e n).mp hv
      cases hr : validateEdits rest n with
      | error err =>
        simp only [exceptIsOk, List.mem_cons]
        rw [hr] at ih
        simp only [exceptIsOk] at ih
        constructor
        · intro h
          exact absurd h (by simp)
        · intro h
          have : (false = true) ↔ _ := ih
          exact absurd (this.mpr (fun x hx => h x (Or.inr hx))) (by simp)
      | ok v =>
        rw [hr] at ih
        simp only [exceptIsOk] at ih
        simp only [exceptIsOk, List.mem_cons]
        constructor
        · intro _ x hx
          rcases hx with hx | hx
          · exact hx ▸ hwf
          · exact ih.mp trivial x hx
        · intro _
          trivial

/-- Claim C2: if any edit in the batch fails validation — an out-of-range
line, a missing required field, or (with content validation enabled) a
replace whose `old` text is absent from the line it addresses when applied —
the patch stage aborts with an error and the file on disk keeps its original
bytes: the single write only happens after every edit has applied. -/
theorem C2_patch_validation_atomicity (content : String)
    (edits : List PatchEdit) (vc : Bool)
    (h : (¬ ∀ e ∈ edits, EditWellFormed e (jsSplit content "\n").length) ∨
      exceptIsOk (patchStage content edits vc) = false) :
    (patchStageDisk content edits vc).1 = content ∧
      (patchStageDisk content edits vc).2.isSome = true := by
  have herr : ∃ msg, patchStage content edits vc = .error msg := by
    rcases h with hbad | hnotok
    · cases hv : validateEdits edits (jsSplit content "\n").length with
      | error msg =>
        refine ⟨msg, ?_⟩
        simp [patchStage, patchLines, hv]
      | ok v =>
        exfalso
        apply hbad
        rw [← validateEdits_isOk_iff, hv]
        rfl
    · cases hps : patchStage content edits vc with
      | error msg => exact ⟨msg, rfl⟩
      | ok res =>
        rw [hps] at hnotok
        exact absurd hnotok (by simp [exceptIsOk])
  obtain ⟨msg, hmsg⟩ := herr
  simp [patchStageDisk, hmsg]

/-- Witness for C2: a replace at line 3 whose expected `old` text `"zzz"` is
absent from that line aborts the call and leaves the file content intact. -/
theorem C2_patch_validation_atomicity_witness :
    (patchStageDisk "line one\nline two\nline three"
      [mkReplace (some 3) (some "zzz") (some "replacement")] true).1 =
      "line one\nline two\nline three" ∧
    (patchStageDisk "line one\nline two\nline three"
      [mkReplace (some 3) (some "zzz") (some "replacement")] true).2.isSome =
      true :=
  C2_patch_validation_atomicity "line one\nline two\nline three"
    [mkReplace (some 3) (some "zzz") (some "replacement")] true
    (Or.inr (by rfl))

/-- Claim C3, counterexample: a valid single replace on a small existing file
under default options is rejected by the efficiency heuristic
(`not_recommended` without `force_execution`), so the edits are NOT applied
and the file is unchanged — the advisory scoring does change whether the
edits are applied. -/
theorem C3_default_options_block_valid_patch :
    exceptIsOk (validateEdits [mkReplace (some 2) none (some "changed")]
      (jsSplit "line one\nline two\nline three\nline four\nline five"
        "\n").length) = true ∧
    (editFilePatchExecute
      "line one\nline two\nline three\nline four\nline five"
      (defaultPatchArgs [mkReplace (some 2) none (some "changed")])).1 =
      "line one\nline two\nline three\nline four\nline five" ∧
    patchApplied (editFilePatchExecute
      "line one\nline two\nline three\nline four\nline five"
      (defaultPatchArgs [mkReplace (some 2) none (some "changed")])).2 =
      false := by
  refine ⟨by rfl, by rfl, by rfl⟩

/-- Claim C3, amended: with `check_efficiency` unset, `edit_file_patch`
applies the edits exactly when `force_execution` is set or the heuristic
rates the call `recommended`/`strongly_recommended`; when it rates
`acceptable` or `not_recommended` and `force_execution` is unset, the call
returns an advisory response and the file is left untouched. -/
theorem C3_efficiency_gate_controls_application (content : String)
    (args : PatchArgs) (ml cs : List String)
    (hce : jsOrBool args.check_efficiency false = false) :
    ((jsOrBool args.force_execution false = true ∨
        (analyzeUsageEfficiency (jsByteLength content) (jsSplit content "\n")
          args.edits).recommendation = .recommended ∨
        (analyzeUsageEfficiency (jsByteLength content) (jsSplit content "\n")
          args.edits).recommendation = .stronglyRecommended) →
      patchLines (jsSplit content "\n") args.edits
        (jsNotFalse args.validate_content) = .ok (ml, cs) →
      editFilePatchExecute content args =
        (jsJoin "\n" ml, .success cs
          (analyzeUsageEfficiency (jsByteLength content) (jsSplit content "\n")
            args.edits).efficiencyNote)) ∧
    ((jsOrBool args.force_execution false = false ∧
        ((analyzeUsageEfficiency (jsByteLength content) (jsSplit content "\n")
           args.edits).recommendation = .acceptable ∨
         (analyzeUsageEfficiency (jsByteLength content) (jsSplit content "\n")
           args.edits).recommendation = .notRecommended)) →
      (editFilePatchExecute content args).1 = content ∧
        patchApplied (editFilePatchExecute content args).2 = false) := by
  constructor
  · intro hrec hok
    simp only [editFilePatchExecute, hce]
    have h1 : ¬((!jsOrBool args.force_execution false) = true ∧
        (analyzeUsageEfficiency (jsByteLength content) (jsSplit content "\n")
          args.edits).recommendation = .notRecommended) := by
      rintro ⟨hf, hr⟩
      rcases hrec with hforce | hr2 | hr2
      · rw [hforce] at hf
        exact absurd hf (by simp)
      · rw [hr] at hr2
        exact absurd hr2 (by simp)
      · rw [hr] at hr2
        exact absurd hr2 (by simp)
    have h2 : ¬((analyzeUsageEfficiency (jsByteLength content)
          (jsSplit content "\n") args.edits).recommendation = .acceptable ∧
        (!jsOrBool args.force_execution false) = true) := by
      rintro ⟨hr, hf⟩
      rcases hrec with hforce | hr2 | hr2
      · rw [hforce] at hf
        exact absurd hf (by simp)
      · rw [hr] at hr2
        exact absurd hr2 (by simp)
      · rw [hr] at hr2
        exact absurd hr2 (by simp)
    rw [if_neg (by simp), if_neg h1, if_neg h2, hok]
  · rintro ⟨hforce, hrec⟩
    simp only [editFilePatchExecute, hce]
    rcases hrec with hr | hr
    · have h1 : ¬((!jsOrBool args.force_execution false) = true ∧
          (analyzeUsageEfficiency (jsByteLength content) (jsSplit content "\n")
            args.edits).recommendation = .notRecommended) := by
        rintro ⟨_, hbad⟩
        rw [hr] at hbad
        exact absurd hbad (by simp)
      have h2 : ((analyzeUsageEfficiency (jsByteLength content)
            (jsSplit content "\n") args.edits).recommendation = .acceptable ∧
          (!jsOrBool args.force_execution false) = true) := by
        exact ⟨hr, by rw [hforce]; rfl⟩
      rw [if_neg (by simp), if_neg h1, if_pos h2]
      exact ⟨rfl, rfl⟩
    · have h1 : ((!jsOrBool args.force_execution false) = true ∧
          (analyzeUsageEfficiency (jsByteLength content) (jsSplit content "\n")
            args.edits).recommendation = .notRecommended) := by
        exact ⟨by rw [hforce]; rfl, hr⟩
      rw [if_neg (by simp), if_pos h1]
      exact ⟨rfl, rfl⟩

/-- Witness for the amended theorem of C3: the small-file single-edit call under
default options hits the `not_recommended` gate and leaves the file
unchanged. -/
theorem C3_efficiency_gate_witness :
    (editFilePatchExecute
      "line one\nline two\nline three\nline four\nline five"
      (defaultPatchArgs [mkReplace (some 2) none (some "changed")])).1 =
      "line one\nline two\nline three\nline four\nline five" ∧
    patchApplied (editFilePatchExecute
      "line one\nline two\nline three\nline four\nline five"
      (defaultPatchArgs [mkReplace (some 2) none (some "changed")])).2 =
      false :=
  (C3_efficiency_gate_controls_application
    "line one\nline two\nline three\nline four\nline five"
    (defaultPatchArgs [mkReplace (some 2) none (some "changed")]) [] []
    rfl).2 ⟨rfl, Or.inr rfl⟩

/-- Claim C4, counterexample: on the 5-line file `A..E`, the batch
`[Replace(line=3), Insert(after_line=1)]` produces `[A, B, INS, NEW, D, E]` —
the inserted line lands after line 2 (`splice(after_line + 1)`), not
immediately after line 1 as the claim states (which would give
`[A, INS, B, NEW, D, E]`). -/
theorem C4_insert_lands_after_line_two :
    patchStage "A\nB\nC\nD\nE"
      [mkReplace (some 3) none (some "NEW"), mkInsert (some 1) (some "INS")]
      true =
      .ok ("A\nB\nINS\nNEW\nD\nE",
        ["Line 3: Replaced content", "After line 1: Inserted content"]) ∧
    ("A\nB\nINS\nNEW\nD\nE" : String) ≠ "A\nINS\nB\nNEW\nD\nE" := by
  exact ⟨rfl, by decide⟩

/-- Claim C4, amended: the engine sorts the batch so the replace (effective
line 3) is applied before the insert (effective line 1), and the final
content equals manually applying the replace first and then the insert on
the original 5-line buffer; the insert splices at index `after_line + 1`, so
the inserted content lands immediately after line 2 rather than line 1. -/
theorem C4_patch_ordering (A B C D E : String) :
    sortEdits [mkReplace (some 3) none (some "NEW"),
      mkInsert (some 1) (some "INS")] =
      [mkReplace (some 3) none (some "NEW"), mkInsert (some 1) (some "INS")] ∧
    patchLines [A, B, C, D, E]
      [mkReplace (some 3) none (some "NEW"), mkInsert (some 1) (some "INS")]
      true =
      .ok ([A, B, "INS", "NEW", D, E],
        ["Line 3: Replaced content", "After line 1: Inserted content"]) ∧
    applyEdits [A, B, C, D, E] [mkReplace (some 3) none (some "NEW")] true =
      .ok ([A, B, "NEW", D, E], ["Line 3: Replaced content"]) ∧
    applyEdits [A, B, "NEW", D, E] [mkInsert (some 1) (some "INS")] true =
      .ok ([A, B, "INS", "NEW", D, E], ["After line 1: Inserted content"]) := by
  refine ⟨rfl, rfl, rfl, rfl⟩

/-- The scan loop reports exactly the (1-based) lines the compiled regex
accepts, in file order. -/
theorem searchContentGo_map_line (r : JsRegex) (sc : Bool)
    (all : List String) :
    ∀ (ls : List String) (i : Nat),
      (searchContentGo r sc all ls i).map (fun m => m.line) =
        ((ls.enumFrom i).filter (fun p => jsRegexTest r p.2)).map
          (fun p => p.1 + 1) := by
  intro ls
  induction ls with
  | nil => intro i; rfl
  | cons l rest ih =>
    intro i
    simp only [searchContentGo, List.enumFrom, List.filter]
    cases h : jsRegexTest r l <;> simp [h, ih]

/-- Claim C7, counterexample: on the query `*.txt` (which contains `*`), the
claimed three-form compilation matches the line `notes.txt` as an unanchored
glob, but the code hands the raw string to `new RegExp`, which throws
`SyntaxError: Nothing to repeat`; the surrounding try/catch swallows it and
the file yields no matches at all. -/
theorem C7_content_query_not_three_forms :
    contentQueryMatchSpec "*.txt" false "notes.txt" = true ∧
    jsRegexCompile "*.txt" true = none ∧
    searchFileContent (some "notes.txt") "*.txt" false true = [] := by
  refine ⟨by rfl, by rfl, by rfl⟩

/-- Claim C7, amended: every content query is compiled directly as a regular
expression (flags `g`/`gi`); there is no `/…/flags`, glob, or substring form.
An invalid pattern — like an unreadable file — yields the empty match list
(the file is excluded), so compilation never fails the search, but there is
no literal-substring fallback; a valid pattern matches exactly the lines the
regex accepts. -/
theorem C7_content_query_is_raw_regex (content q : String) (cs sc : Bool) :
    (jsRegexCompile q (!cs) = none →
      searchFileContent (some content) q cs sc = []) ∧
    (∀ r, jsRegexCompile q (!cs) = some r →
      (searchFileContent (some content) q cs sc).map (fun m => m.line) =
        (((jsSplit content "\n").enumFrom 0).filter
          (fun p => jsRegexTest r p.2)).map (fun p => p.1 + 1)) ∧
    searchFileContent none q cs sc = [] := by
  refine ⟨?_, ?_, rfl⟩
  · intro h
    simp [searchFileContent, h]
  · intro r hr
    simp only [searchFileContent, hr]
    exact searchContentGo_map_line r sc (jsSplit content "\n")
      (jsSplit content "\n") 0

/-- Witness for the amended theorem of C7: the invalid-pattern premise discharged
at the `*.txt` query, and the valid-pattern clause at the query `TODO`. -/
theorem C7_content_query_witness :
    searchFileContent (some "notes.txt") "*.txt" false true = [] ∧
    (searchFileContent (some "alpha\nTODO x\nbeta") "TODO" false true).map
      (fun m => m.line) = [2] :=
  ⟨(C7_content_query_is_raw_regex "notes.txt" "*.txt" false true).1 (by rfl),
   by
    have h := (C7_content_query_is_raw_regex "alpha\nTODO x\nbeta" "TODO"
      false true).2.1 ⟨false, [(RAtom.lit 'T', RQuant.one),
        (RAtom.lit 'O', RQuant.one), (RAtom.lit 'D', RQuant.one),
        (RAtom.lit 'O', RQuant.one)], false, true⟩ (by rfl)
    rw [h]
    rfl⟩

/-- Claim C5: missing-source and nested-destination preconditions do abort
before any mutation, but the destination type check is broken: its throw is
swallowed by the enclosing empty catch, so copying an (empty) directory onto
an existing regular file reports success instead of a TypeMismatch error.
This evaluates the code at the failing input. -/
theorem C5_destination_type_check_swallowed :
    copyDirectoryExecute (fun _ => true)
      (FSNode.dir [("src", FSNode.dir []), ("dst", FSNode.file "data")])
      ["src"] ["dst"] defaultCopyOptions =
      (FSNode.dir [("src", FSNode.dir []), ("dst", FSNode.file "data")],
        CopyResult.success ⟨0, 0, 0, 0⟩) ∧
    fsLookup ["dst"]
      (FSNode.dir [("src", FSNode.dir []), ("dst", FSNode.file "data")]) =
      some (FSNode.file "data") ∧
    copyDirectoryExecute (fun _ => true)
      (FSNode.dir [("src", FSNode.dir []), ("dst", FSNode.file "data")])
      ["missing"] ["dst"] defaultCopyOptions =
      (FSNode.dir [("src", FSNode.dir []), ("dst", FSNode.file "data")],
        CopyResult.errorResponse "Source directory does not exist") ∧
    copyDirectoryExecute (fun _ => true)
      (FSNode.dir [("src", FSNode.dir []), ("dst", FSNode.file "data")])
      ["src"] ["src", "sub"] defaultCopyOptions =
      (FSNode.dir [("src", FSNode.dir []), ("dst", FSNode.file "data")],
        CopyResult.errorResponse "Cannot copy directory into itself") := by
  refine ⟨by rfl, by rfl, by rfl, by rfl⟩

/-- Claim C6: merging a source directory `{x.txt: b, y.txt: c}` into a
destination `{x.txt: a}` with `merge_existing = true` and
`overwrite_files = false` keeps the `x.txt` of the destination unchanged, brings
`y.txt` over from the source, removes the whole source directory (the final
`fs.rm(source, {recursive, force})` deletes the skipped `x.txt` with it),
and reports `filesMoved = 1`, `filesSkipped = 1` (and `directoriesMoved =
0`), for every choice of file contents. -/
theorem C6_merge_move_scenario (a b c : String) :
    moveDirectoryExecute (fun _ => true) 10
      (FSNode.dir [("src", FSNode.dir
          [("x.txt", FSNode.file b), ("y.txt", FSNode.file c)]),
        ("dst", FSNode.dir [("x.txt", FSNode.file a)])])
      ["src"] ["dst"] true false =
      (FSNode.dir [("dst", FSNode.dir
          [("x.txt", FSNode.file a), ("y.txt", FSNode.file c)])],
        MoveResult.mergeDone ⟨1, 0, 1⟩) := by
  rfl

/-- Claim C8, counterexample: two files in traversal order `b.txt`, `a.txt`,
each with exactly one content match, come back in traversal order — the
comparator returns `0` for equal positive match counts, so the lexical
tie-break (which would put `a.txt` first) never runs for them. -/
theorem C8_equal_count_ties_not_lexical :
    ((searchFilesModel
        ⟨fun id => if id = 0 then
          [SEntry.fileEntry "b.txt" "TODO", SEntry.fileEntry "a.txt" "TODO"]
         else []⟩
        ⟨none, some "TODO", none, false, 10, false, true, 100⟩
        (fun _ => true) 0 "/base").1.map (fun r => r.file)) =
      ["b.txt", "a.txt"] ∧
    jsLocaleCompare "a.txt" "b.txt" < 0 := by
  exact ⟨by rfl, by decide⟩

/-- Claim C10, counterexample: with a content query, flipping the request
field `show_context` from `true` to `false` leaves the internal result list
identical (the defaulting expression is always `true`), yet the rendered
response differs, because `formatResults` re-reads the raw
`args.show_context` when printing context blocks. -/
theorem C10_show_context_affects_response :
    (searchFilesModel
      ⟨fun id => if id = 0 then
        [SEntry.fileEntry "f.txt" "alpha\nTODO x\nbeta"] else []⟩
      (searchOptsOfArgs
        ⟨none, none, some "TODO", none, none, none, none, some true, none⟩)
      (fun _ => true) 0 "/base").1 =
    (searchFilesModel
      ⟨fun id => if id = 0 then
        [SEntry.fileEntry "f.txt" "alpha\nTODO x\nbeta"] else []⟩
      (searchOptsOfArgs
        ⟨none, none, some "TODO", none, none, none, none, some false, none⟩)
      (fun _ => true) 0 "/base").1 ∧
    searchFilesExecute
      ⟨fun id => if id = 0 then
        [SEntry.fileEntry "f.txt" "alpha\nTODO x\nbeta"] else []⟩
      ⟨none, none, some "TODO", none, none, none, none, some true, none⟩
      (fun _ => true) 0 "/base" ≠
    searchFilesExecute
      ⟨fun id => if id = 0 then
        [SEntry.fileEntry "f.txt" "alpha\nTODO x\nbeta"] else []⟩
      ⟨none, none, some "TODO", none, none, none, none, some false, none⟩
      (fun _ => true) 0 "/base" := by
  exact ⟨by rfl, by decide⟩

/-- With a falsy raw `show_context`, a match renders the same with or
without its context. -/
theorem formatMatchLine_strip (args : SearchArgs)
    (h : jsTruthyBool args.show_context = false) (m : ContentMatch) :
    formatMatchLine args (stripContextMatch m) = formatMatchLine args m := by
  simp [formatMatchLine, stripContextMatch, h]

/-- With a falsy raw `show_context`, a file block renders the same with or
without its contexts. -/
theorem formatFileBlock_strip (hasC : Bool) (args : SearchArgs)
    (h : jsTruthyBool args.show_context = false) (f : SearchResult) :
    formatFileBlock hasC args (stripContextRes f) =
      formatFileBlock hasC args f := by
  rcases f with ⟨file, ty, size, ms⟩
  cases ms with
  | none => rfl
  | some ms =>
    have hfold : ∀ (init : List String) (l : List ContentMatch),
        l.foldl (fun acc m => acc ++ formatMatchLine args
          (stripContextMatch m)) init =
        l.foldl (fun acc m => acc ++ formatMatchLine args m) init := by
      intro init l
      induction l generalizing init with
      | nil => rfl
      | cons x xs ih =>
        simp only [List.foldl_cons, formatMatchLine_strip args h x, ih]
    simp [formatFileBlock, stripContextRes, List.map_take, List.foldl_map,
      hfold]
    rw [show List.take 3 (List.map stripContextMatch ms) =
        List.map stripContextMatch (List.take 3 ms) from by
      simp [List.map_take]]
    rw [List.foldl_map, hfold]

/-- With a falsy raw `show_context`, the whole response renders the same
with or without contexts. -/
theorem formatResults_strip (results : List SearchResult) (args : SearchArgs)
    (h : jsTruthyBool args.show_context = false) :
    formatResults (results.map stripContextRes) args =
      formatResults results args := by
  have hfilter : ∀ k : SRKind,
      (results.map stripContextRes).filter (fun r => r.type == k) =
        (results.filter (fun r => r.type == k)).map stripContextRes := by
    intro k
    induction results with
    | nil => rfl
    | cons r rs ih =>
      rcases r with ⟨file, ty, size, ms⟩
      by_cases hty : ty == k
      · simp [stripContextRes, hty, ih]
      · simp only [List.map_cons, List.filter_cons]
        simp [stripContextRes, hty, ih]
  simp only [formatResults, List.length_map, hfilter]
  have hfiles := hfilter SRKind.fileKind
  have hfold : ∀ (init : List String) (l : List SearchResult),
      (l.map stripContextRes).foldl (fun acc f =>
        acc ++ formatFileBlock (jsTruthyStr args.content) args f) init =
      l.foldl (fun acc f =>
        acc ++ formatFileBlock (jsTruthyStr args.content) args f) init := by
    intro init l
    induction l generalizing init with
    | nil => rfl
    | cons x xs ih =>
      simp only [List.map_cons, List.foldl_cons,
        formatFileBlock_strip (jsTruthyStr args.content) args h x, ih]
  have hsum : ∀ (init : Nat) (l : List SearchResult),
      (l.map stripContextRes).foldl
        (fun s f => s + (f.matches_.getD []).length) init =
      l.foldl (fun s f => s + (f.matches_.getD []).length) init := by
    intro init l
    induction l generalizing init with
    | nil => rfl
    | cons x xs ih =>
      rcases x with ⟨file, ty, size, ms⟩
      cases ms <;> simp [stripContextRes, ih]
  have hdirmap : ∀ l : List SearchResult,
      (l.map stripContextRes).map (fun d => "  " ++ d.file ++ "/") =
        l.map (fun d => "  " ++ d.file ++ "/") := by
    intro l
    simp [stripContextRes, List.map_map]
  rw [hfold, hsum, hdirmap]

/-- Claim C10, amended: the option-defaulting `args.show_context as boolean
|| true` evaluates to `true` for every input, so the internal search results
(matches and their contexts) are identical whatever the request
field `show_context` is; but `formatResults` re-reads the raw field and prints
context blocks only when it is truthy, so the rendered response does depend
on it (only through the context blocks: with a falsy flag the response
equals that of the same results with all contexts removed). -/
theorem C10_show_context_only_affects_rendering :
    (∀ o : Option Bool, jsOrBool o true = true) ∧
    (∀ (fs : SFS) (allowed : String → Bool) (rootId : Nat) (rootAbs : String)
        (args : SearchArgs) (b1 b2 : Option Bool),
      (searchFilesModel fs (searchOptsOfArgs (setShowContext args b1))
        allowed rootId rootAbs).1 =
      (searchFilesModel fs (searchOptsOfArgs (setShowContext args b2))
        allowed rootId rootAbs).1) ∧
    (∀ (results : List SearchResult) (args : SearchArgs),
      jsTruthyBool args.show_context = false →
      formatResults (results.map stripContextRes) args =
        formatResults results args) := by
  have hb : ∀ o : Option Bool, jsOrBool o true = true := by
    intro o
    cases o with
    | none => rfl
    | some b => cases b <;> rfl
  refine ⟨hb, ?_, ?_⟩
  · intro fs allowed rootId rootAbs args b1 b2
    have : searchOptsOfArgs (setShowContext args b1) =
        searchOptsOfArgs (setShowContext args b2) := by
      simp [searchOptsOfArgs, setShowContext, hb]
    rw [this]
  · intro results args h
    exact formatResults_strip results args h

/-- Witness for the amended theorem of C10 at a concrete falsy request. -/
theorem C10_show_context_witness :
    jsOrBool (some false) true = true ∧
    formatResults
      ([⟨"f.txt", SRKind.fileKind, some 17,
        some [⟨2, "TODO x", some "1: alpha\n3: beta"⟩]⟩].map stripContextRes)
      ⟨none, none, some "TODO", none, none, none, none, some false, none⟩ =
    formatResults
      [⟨"f.txt", SRKind.fileKind, some 17,
        some [⟨2, "TODO x", some "1: alpha\n3: beta"⟩]⟩]
      ⟨none, none, some "TODO", none, none, none, none, some false, none⟩ :=
  ⟨C10_show_context_only_affects_rendering.1 (some false),
   C10_show_context_only_affects_rendering.2.2
     [⟨"f.txt", SRKind.fileKind, some 17,
       some [⟨2, "TODO x", some "1: alpha\n3: beta"⟩]⟩]
     ⟨none, none, some "TODO", none, none, none, none, some false, none⟩
     (by rfl)⟩

/-- One step of the entry loop either keeps the visited set and trace
unchanged (possibly pushing results), or hands control to `recurse` once on
a subdirectory, appending its trace. -/
theorem searchStep_cases (fs : SFS) (opts : SearchOpts)
    (allowed : String → Bool)
    (recurse : Nat → String → String → List SearchResult → List Nat → Int →
      WalkAcc)
    (depth : Int) (absPath relPrefix : String)
    (acc : WalkAcc) (e : SEntry) :
    (∃ res1, searchStep fs opts allowed recurse depth absPath relPrefix
        acc e = (res1, acc.2.1, acc.2.2)) ∨
    (∃ tgt a rel res1,
      searchStep fs opts allowed recurse depth absPath relPrefix acc e =
        ((recurse tgt a rel res1 acc.2.1 (depth + 1)).1,
         (recurse tgt a rel res1 acc.2.1 (depth + 1)).2.1,
         acc.2.2 ++ (recurse tgt a rel res1 acc.2.1 (depth + 1)).2.2)) := by
  rcases acc with ⟨resA, visA, trA⟩
  cases e with
  | dirEntry n tgt =>
    simp only [searchStep]
    split_ifs <;>
      first
        | exact Or.inl ⟨_, rfl⟩
        | exact Or.inr ⟨tgt, _, _, _, rfl⟩
  | fileEntry n c =>
    simp only [searchStep]
    split_ifs <;> exact Or.inl ⟨_, rfl⟩

/-- The entry loop preserves the walk invariant: assuming every `recurse`
call satisfies `TraceSpec`, the fold over any entry list appends a
duplicate-free trace disjoint from the incoming visited set, and grows the
visited set by exactly that trace. -/
theorem searchFold_spec (fs : SFS) (opts : SearchOpts)
    (allowed : String → Bool)
    (recurse : Nat → String → String → List SearchResult → List Nat → Int →
      WalkAcc)
    (depth : Int) (absPath relPrefix : String)
    (hrec : ∀ tgt a rel res vis d, TraceSpec vis (recurse tgt a rel res vis d)) :
    ∀ (entries : List SEntry) (res0 : List SearchResult) (vis0 tr0 : List Nat),
      ∃ tNew,
        (entries.foldl (searchStep fs opts allowed recurse depth absPath
          relPrefix) (res0, vis0, tr0)).2.2 = tr0 ++ tNew ∧
        (∀ x ∈ tNew, x ∉ vis0) ∧ tNew.Nodup ∧
        (∀ x, x ∈ (entries.foldl (searchStep fs opts allowed recurse depth
          absPath relPrefix) (res0, vis0, tr0)).2.1 ↔ x ∈ tNew ∨ x ∈ vis0) := by
  intro entries
  induction entries with
  | nil =>
    intro res0 vis0 tr0
    exact ⟨[], by simp, by simp, List.nodup_nil, fun x => by simp⟩
  | cons e rest ih =>
    intro res0 vis0 tr0
    rw [List.foldl_cons]
    rcases searchStep_cases fs opts allowed recurse depth absPath relPrefix
      (res0, vis0, tr0) e with ⟨res1, heq⟩ | ⟨tgt, a, rel, res1, heq⟩
    · rw [heq]
      exact ih res1 vis0 tr0
    · rw [heq]
      obtain ⟨hd1, hn1, hm1⟩ := hrec tgt a rel res1 vis0 (depth + 1)
      obtain ⟨t2, htr2, hd2, hn2, hm2⟩ := ih
        (recurse tgt a rel res1 vis0 (depth + 1)).1
        (recurse tgt a rel res1 vis0 (depth + 1)).2.1
        (tr0 ++ (recurse tgt a rel res1 vis0 (depth + 1)).2.2)
      refine ⟨(recurse tgt a rel res1 vis0 (depth + 1)).2.2 ++ t2, ?_, ?_, ?_, ?_⟩
      · rw [htr2, List.append_assoc]
      · intro x hx
        rcases List.mem_append.mp hx with hx | hx
        · exact hd1 x hx
        · intro hvx
          exact hd2 x hx ((hm1 x).mpr (Or.inr hvx))
      · refine List.Nodup.append hn1 hn2 ?_
        intro x hx1 hx2
        exact hd2 x hx2 ((hm1 x).mpr (Or.inl hx1))
      · intro x
        rw [hm2 x, hm1 x, List.mem_append]
        tauto

/-- Every walk call satisfies the invariant: its trace of processed
(canonical) directories is duplicate-free and disjoint from the visited set
it started from. -/
theorem searchRec_spec (fs : SFS) (opts : SearchOpts)
    (allowed : String → Bool) :
    ∀ (fuel curId : Nat) (absPath relPrefix : String)
      (results : List SearchResult) (visited : List Nat) (depth : Int),
      TraceSpec visited (searchRec fs opts allowed fuel curId absPath
        relPrefix results visited depth) := by
  intro fuel
  induction fuel with
  | zero =>
    intro curId absPath relPrefix results visited depth
    exact ⟨by simp [searchRec], by simp [searchRec], fun x => by
      simp [searchRec]⟩
  | succ fuel ih =>
    intro curId absPath relPrefix results visited depth
    simp only [searchRec]
    split_ifs with h1 h2
    · exact ⟨by simp, by simp, fun x => by simp⟩
    · exact ⟨by simp, by simp, fun x => by simp⟩
    · have hcur : curId ∉ visited := by
        intro hmem
        apply h2
        simp only [List.contains_eq_any_beq, List.any_eq_true]
        exact ⟨curId, hmem, by simp⟩
      obtain ⟨tNew, htr, hdis, hnd, hmem⟩ := searchFold_spec fs opts allowed
        (fun tgt abs2 rel2 res2 vis2 d2 =>
          searchRec fs opts allowed fuel tgt abs2 rel2 res2 vis2 d2)
        depth absPath relPrefix
        (fun tgt a rel res vis d => ih tgt a rel res vis d)
        (fs.dirs curId) results (curId :: visited) [curId]
      refine ⟨?_, ?_, ?_⟩
      · rw [htr]
        intro x hx hvx
        rcases List.mem_append.mp hx with hx | hx
        · rw [List.mem_singleton] at hx
          exact hcur (hx ▸ hvx)
        · exact hdis x hx (List.mem_cons_of_mem _ hvx)
      · rw [htr]
        refine List.Nodup.append (List.nodup_singleton _) hnd ?_
        intro x hx1 hx2
        rw [List.mem_singleton] at hx1
        exact hdis x hx2 (hx1 ▸ List.mem_cons_self _ _)
      · intro x
        rw [hmem x, htr, List.mem_append, List.mem_singleton, List.mem_cons]
        tauto

/-- Claim C9: the recursive walk of `search_files` is a total function (it
terminates on every directory graph, including symlink cycles back to an
ancestor, by construction of the model), and no canonical directory
identity is processed twice: the per-call visited set is checked on entry
and extended before the entries of the directory are read, so the trace of
processed directories is duplicate-free for every graph, option set and
starting point. -/
theorem C9_traversal_visits_each_directory_once (fs : SFS)
    (opts : SearchOpts) (allowed : String → Bool) (rootId : Nat)
    (rootAbs : String) :
    (searchFilesModel fs opts allowed rootId rootAbs).2.Nodup :=
  (searchRec_spec fs opts allowed ((opts.maxDepth + 1).toNat) rootId rootAbs
    "" [] [] 0).2.1

/-- Elements of an insertion are the inserted element or list members. -/
theorem mem_insertBy {α : Type} (le : α → α → Bool) (a : α) :
    ∀ (l : List α) (x : α), x ∈ insertBy le a l → x = a ∨ x ∈ l := by
  intro l
  induction l with
  | nil =>
    intro x hx
    simp only [insertBy] at hx
    simp at hx
    exact Or.inl hx
  | cons y ys ih =>
    intro x hx
    simp only [insertBy] at hx
    split_ifs at hx
    · rcases List.mem_cons.mp hx with h | h
      · exact Or.inl h
      · exact Or.inr h
    · rcases List.mem_cons.mp hx with h | h
      · exact Or.inr (h ▸ List.mem_cons_self _ _)
      · rcases ih x h with h2 | h2
        · exact Or.inl h2
        · exact Or.inr (List.mem_cons_of_mem _ h2)

/-- Elements of the insertion sort are list members. -/
theorem mem_insertionSortBy {α : Type} (le : α → α → Bool) :
    ∀ (l : List α) (x : α), x ∈ insertionSortBy le l → x ∈ l := by
  intro l
  induction l with
  | nil =>
    intro x hx
    simp [insertionSortBy] at hx
  | cons y ys ih =>
    intro x hx
    simp only [insertionSortBy] at hx
    rcases mem_insertBy le y _ x hx with h | h
    · exact h ▸ List.mem_cons_self _ _
    · exact List.mem_cons_of_mem _ (ih x h)

/-- Inserting into a sorted list keeps it sorted, for a comparator total and
transitive on a class `S` containing all involved elements. -/
theorem pairwise_insertBy {α : Type} (le : α → α → Bool) (S : α → Prop)
    (htot : ∀ a b, S a → S b → le a b = true ∨ le b a = true)
    (htrans : ∀ a b c, S a → S b → S c → le a b = true → le b c = true →
      le a c = true)
    (a : α) (hSa : S a) :
    ∀ (l : List α), (∀ x ∈ l, S x) →
      List.Pairwise (fun x y => le x y = true) l →
      List.Pairwise (fun x y => le x y = true) (insertBy le a l) := by
  intro l
  induction l with
  | nil =>
    intro _ _
    simp [insertBy]
  | cons y ys ih =>
    intro hS hp
    simp only [insertBy]
    split_ifs with hle
    · refine List.Pairwise.cons ?_ hp
      intro z hz
      rcases List.mem_cons.mp hz with h | h
      · exact h ▸ hle
      · exact htrans a y z hSa (hS y (List.mem_cons_self _ _))
          (hS z (List.mem_cons_of_mem _ h)) hle
          (List.rel_of_pairwise_cons hp h)
    · refine List.Pairwise.cons ?_ (ih (fun x hx =>
        hS x (List.mem_cons_of_mem _ hx)) (List.Pairwise.of_cons hp))
      intro z hz
      rcases mem_insertBy le a _ z hz with h | h
      · rcases htot a y hSa (hS y (List.mem_cons_self _ _)) with h2 | h2
        · exact absurd h2 (by simpa using hle)
        · exact h ▸ h2
      · exact List.rel_of_pairwise_cons hp h

/-- The insertion sort output is pairwise ordered, for a comparator total
and transitive on a class containing the list. -/
theorem pairwise_insertionSortBy {α : Type} (le : α → α → Bool)
    (S : α → Prop)
    (htot : ∀ a b, S a → S b → le a b = true ∨ le b a = true)
    (htrans : ∀ a b c, S a → S b → S c → le a b = true → le b c = true →
      le a c = true) :
    ∀ (l : List α), (∀ x ∈ l, S x) →
      List.Pairwise (fun x y => le x y = true) (insertionSortBy le l) := by
  intro l
  induction l with
  | nil =>
    intro _
    simp [insertionSortBy]
  | cons y ys ih =>
    intro hS
    simp only [insertionSortBy]
    exact pairwise_insertBy le S htot htrans y (hS y (List.mem_cons_self _ _))
      _ (fun x hx => hS x (List.mem_cons_of_mem _
        (mem_insertionSortBy le ys x hx)))
      (ih (fun x hx => hS x (List.mem_cons_of_mem _ hx)))

/-- Code-point comparison is total. -/
theorem charListCmp_total : ∀ (a b : List Char),
    charListCmp a b ≤ 0 ∨ charListCmp b a ≤ 0 := by
  intro a
  induction a with
  | nil =>
    intro b
    cases b <;> simp [charListCmp]
  | cons x xs ih =>
    intro b
    cases b with
    | nil => simp [charListCmp]
    | cons y ys =>
      by_cases h1 : x.toNat < y.toNat
      · left
        simp [charListCmp, h1]
      · by_cases h2 : y.toNat < x.toNat
        · right
          simp [charListCmp, h2]
        · simp only [charListCmp, h1, h2, if_false]
          exact ih ys

/-- Code-point comparison is transitive. -/
theorem charListCmp_trans : ∀ (a b c : List Char),
    charListCmp a b ≤ 0 → charListCmp b c ≤ 0 → charListCmp a c ≤ 0 := by
  intro a
  induction a with
  | nil =>
    intro b c _ _
    cases c <;> simp [charListCmp]
  | cons x xs ih =>
    intro b c h1 h2
    cases b with
    | nil => simp [charListCmp] at h1
    | cons y ys =>
      cases c with
      | nil => simp [charListCmp] at h2
      | cons z zs =>
        simp only [charListCmp] at h1 h2 ⊢
        by_cases hxy : x.toNat < y.toNat <;>
          by_cases hyx : y.toNat < x.toNat <;>
          by_cases hyz : y.toNat < z.toNat <;>
          by_cases hzy : z.toNat < y.toNat <;>
          by_cases hxz : x.toNat < z.toNat <;>
          by_cases hzx : z.toNat < x.toNat <;>
          simp_all <;> try omega
        rw [if_neg (show ¬x.toNat < z.toNat by omega),
          if_neg (show ¬z.toNat < x.toNat by omega)]
        exact ih ys zs h1 h2

/-- Value of the comparator when neither side has matches. -/
theorem cmp_none_none (a b : SearchResult) (hma : a.matches_ = none)
    (hmb : b.matches_ = none) :
    searchResultsCmp a b = jsLocaleCompare a.file b.file := by
  simp [searchResultsCmp, hma, hmb]

/-- Value of the comparator when only the left side has matches. -/
theorem cmp_some_none (a b : SearchResult) (msa : List ContentMatch)
    (hma : a.matches_ = some msa) (hpa : 0 < msa.length)
    (hmb : b.matches_ = none) :
    searchResultsCmp a b = -1 := by
  simp [searchResultsCmp, hma, hmb, hpa]

/-- Value of the comparator when only the right side has matches. -/
theorem cmp_none_some (a b : SearchResult) (msb : List ContentMatch)
    (hma : a.matches_ = none) (hmb : b.matches_ = some msb)
    (hpb : 0 < msb.length) :
    searchResultsCmp a b = 1 := by
  simp [searchResultsCmp, hma, hmb, hpb]

/-- Value of the comparator when both sides have matches. -/
theorem cmp_some_some (a b : SearchResult) (msa msb : List ContentMatch)
    (hma : a.matches_ = some msa) (hmb : b.matches_ = some msb)
    (hpa : 0 < msa.length) (hpb : 0 < msb.length) :
    searchResultsCmp a b = (msb.length : Int) - (msa.length : Int) := by
  simp [searchResultsCmp, hma, hmb, Nat.pos_iff_ne_zero.mp hpa,
    Nat.pos_iff_ne_zero.mp hpb, hpa, hpb]

/-- On well-formed results the comparator is total. -/
theorem searchResultsCmp_total (a b : SearchResult)
    (ha : ResWF a) (hb : ResWF b) :
    searchResultsCmp a b ≤ 0 ∨ searchResultsCmp b a ≤ 0 := by
  rcases hma : a.matches_ with _ | msa <;> rcases hmb : b.matches_ with _ | msb
  · rw [cmp_none_none a b hma hmb, cmp_none_none b a hmb hma]
    exact charListCmp_total a.file.data b.file.data
  · have hpb : 0 < msb.length := List.length_pos.mpr (hb msb hmb)
    right
    rw [cmp_some_none b a msb hmb hpb hma]
    omega
  · have hpa : 0 < msa.length := List.length_pos.mpr (ha msa hma)
    left
    rw [cmp_some_none a b msa hma hpa hmb]
    omega
  · have hpa : 0 < msa.length := List.length_pos.mpr (ha msa hma)
    have hpb : 0 < msb.length := List.length_pos.mpr (hb msb hmb)
    rw [cmp_some_some a b msa msb hma hmb hpa hpb,
      cmp_some_some b a msb msa hmb hma hpb hpa]
    omega

/-- On well-formed results the comparator is transitive. -/
theorem searchResultsCmp_trans (a b c : SearchResult)
    (ha : ResWF a) (hb : ResWF b) (hc : ResWF c)
    (h1 : searchResultsCmp a b ≤ 0) (h2 : searchResultsCmp b c ≤ 0) :
    searchResultsCmp a c ≤ 0 := by
  rcases hma : a.matches_ with _ | msa <;>
    rcases hmb : b.matches_ with _ | msb <;>
    rcases hmc : c.matches_ with _ | msc
  · rw [cmp_none_none a b hma hmb] at h1
    rw [cmp_none_none b c hmb hmc] at h2
    rw [cmp_none_none a c hma hmc]
    exact charListCmp_trans _ _ _ h1 h2
  · have hpc : 0 < msc.length := List.length_pos.mpr (hc msc hmc)
    rw [cmp_none_some b c msc hmb hmc hpc] at h2
    omega
  · have hpb : 0 < msb.length := List.length_pos.mpr (hb msb hmb)
    rw [cmp_none_some a b msb hma hmb hpb] at h1
    omega
  · have hpb : 0 < msb.length := List.length_pos.mpr (hb msb hmb)
    rw [cmp_none_some a b msb hma hmb hpb] at h1
    omega
  · have hpa : 0 < msa.length := List.length_pos.mpr (ha msa hma)
    rw [cmp_some_none a c msa hma hpa hmc]
    omega
  · have hpc : 0 < msc.length := List.length_pos.mpr (hc msc hmc)
    rw [cmp_none_some b c msc hmb hmc hpc] at h2
    omega
  · have hpa : 0 < msa.length := List.length_pos.mpr (ha msa hma)
    rw [cmp_some_none a c msa hma hpa hmc]
    omega
  · have hpa : 0 < msa.length := List.length_pos.mpr (ha msa hma)
    have hpb : 0 < msb.length := List.length_pos.mpr (hb msb hmb)
    have hpc : 0 < msc.length := List.length_pos.mpr (hc msc hmc)
    rw [cmp_some_some a b msa msb hma hmb hpa hpb] at h1
    rw [cmp_some_some b c msb msc hmb hmc hpb hpc] at h2
    rw [cmp_some_some a c msa msc hma hmc hpa hpc]
    omega

/-- One entry step keeps the results well-formed: pushed directory results
carry no matches, and pushed file results carry a non-empty match list. -/
theorem searchStep_resultsWF (fs : SFS) (opts : SearchOpts)
    (allowed : String → Bool)
    (recurse : Nat → String → String → List SearchResult → List Nat → Int →
      WalkAcc)
    (depth : Int) (absPath relPrefix : String)
    (hrec : ∀ tgt a rel res vis d, ResultsWF res →
      ResultsWF (recurse tgt a rel res vis d).1)
    (acc : WalkAcc) (e : SEntry) (hacc : ResultsWF acc.1) :
    ResultsWF (searchStep fs opts allowed recurse depth absPath relPrefix
      acc e).1 := by
  rcases acc with ⟨resA, visA, trA⟩
  have hdir : ∀ rel, ResultsWF (resA ++
      [⟨rel, SRKind.dirKind, none, none⟩]) := by
    intro rel r hr
    rcases List.mem_append.mp hr with h | h
    · exact hacc r h
    · rw [List.mem_singleton] at h
      subst h
      intro ms hms
      simp at hms
  cases e with
  | dirEntry n tgt =>
    simp only [searchStep]
    split_ifs <;>
      first
        | exact hacc
        | exact hrec _ _ _ _ _ _ (hdir _)
        | exact hrec _ _ _ _ _ _ hacc
  | fileEntry n c =>
    simp only [searchStep]
    split_ifs <;> try exact hacc
    all_goals
      intro r hr
      rcases List.mem_append.mp hr with h | h
      · exact hacc r h
      · rw [List.mem_singleton] at h
        subst h
        intro ms hms
        simp only [Option.some_inj] at hms
        first
          | (subst hms
             exact List.ne_nil_of_length_pos (by assumption))
          | simp at hms

/-- The entry loop keeps results well-formed. -/
theorem searchFold_resultsWF (fs : SFS) (opts : SearchOpts)
    (allowed : String → Bool)
    (recurse : Nat → String → String → List SearchResult → List Nat → Int →
      WalkAcc)
    (depth : Int) (absPath relPrefix : String)
    (hrec : ∀ tgt a rel res vis d, ResultsWF res →
      ResultsWF (recurse tgt a rel res vis d).1) :
    ∀ (entries : List SEntry) (acc : WalkAcc), ResultsWF acc.1 →
      ResultsWF ((entries.foldl (searchStep fs opts allowed recurse depth
        absPath relPrefix) acc).1) := by
  intro entries
  induction entries with
  | nil =>
    intro acc hacc
    exact hacc
  | cons e rest ih =>
    intro acc hacc
    rw [List.foldl_cons]
    refine ih _ ?_
    have hstep := searchStep_resultsWF fs opts allowed recurse depth absPath
      relPrefix hrec acc e hacc
    exact hstep

/-- Every walk call keeps and produces well-formed results. -/
theorem searchRec_resultsWF (fs : SFS) (opts : SearchOpts)
    (allowed : String → Bool) :
    ∀ (fuel curId : Nat) (absPath relPrefix : String)
      (results : List SearchResult) (visited : List Nat) (depth : Int),
      ResultsWF results →
      ResultsWF (searchRec fs opts allowed fuel curId absPath relPrefix
        results visited depth).1 := by
  intro fuel
  induction fuel with
  | zero =>
    intro curId absPath relPrefix results visited depth hres
    exact hres
  | succ fuel ih =>
    intro curId absPath relPrefix results visited depth hres
    simp only [searchRec]
    split_ifs with h1 h2
    · exact hres
    · exact hres
    · exact searchFold_resultsWF fs opts allowed _ depth absPath relPrefix
        (fun tgt a rel res vis d hr => ih tgt a rel res vis d hr)
        (fs.dirs curId) (results, curId :: visited, [curId]) hres

/-- Claim C8, amended: the returned list is ordered so that entries with
content matches precede entries without; among entries with matches the
match counts are non-increasing; and lexical path order is guaranteed only
between entries that both lack content matches — equal positive match
counts are left in traversal order (the comparator returns 0 for them, and
the stable sort keeps their relative order, as the counterexample shows at
a concrete input). -/
theorem C8_search_order (fs : SFS) (opts : SearchOpts)
    (allowed : String → Bool) (rootId : Nat) (rootAbs : String) :
    List.Pairwise
      (fun a b =>
        (resHasM b = true → resHasM a = true) ∧
        (resHasM a = true → resHasM b = true →
          (b.matches_.getD []).length ≤ (a.matches_.getD []).length) ∧
        (resHasM a = false → resHasM b = false →
          jsLocaleCompare a.file b.file ≤ 0))
      (searchFilesModel fs opts allowed rootId rootAbs).1 := by
  have hwf : ResultsWF ((searchRec fs opts allowed
      ((opts.maxDepth + 1).toNat) rootId rootAbs "" [] [] 0).1) :=
    searchRec_resultsWF fs opts allowed _ rootId rootAbs "" [] [] 0
      (fun r hr => absurd hr (List.not_mem_nil r))
  have hsorted : List.Pairwise
      (fun x y => ((searchResultsCmp x y ≤ 0 : Bool)) = true)
      (sortResults ((searchRec fs opts allowed ((opts.maxDepth + 1).toNat)
        rootId rootAbs "" [] [] 0).1)) := by
    refine pairwise_insertionSortBy _ ResWF ?_ ?_ _ ?_
    · intro a b hsa hsb
      rcases searchResultsCmp_total a b hsa hsb with h | h
      · exact Or.inl (by simpa using h)
      · exact Or.inr (by simpa using h)
    · intro a b c hsa hsb hsc hab hbc
      simp only [decide_eq_true_eq] at hab hbc ⊢
      exact searchResultsCmp_trans a b c hsa hsb hsc hab hbc
    · intro x hx
      exact hwf x hx
  have hsorted2 : List.Pairwise
      (fun a b =>
        (resHasM b = true → resHasM a = true) ∧
        (resHasM a = true → resHasM b = true →
          (b.matches_.getD []).length ≤ (a.matches_.getD []).length) ∧
        (resHasM a = false → resHasM b = false →
          jsLocaleCompare a.file b.file ≤ 0))
      (sortResults ((searchRec fs opts allowed ((opts.maxDepth + 1).toNat)
        rootId rootAbs "" [] [] 0).1)) := by
    refine List.Pairwise.imp_of_mem ?_ hsorted
    intro a b hma hmb hab
    have hwa : ResWF a := hwf a (mem_insertionSortBy _ _ a hma)
    have hwb : ResWF b := hwf b (mem_insertionSortBy _ _ b hmb)
    simp only [decide_eq_true_eq] at hab
    refine ⟨?_, ?_, ?_⟩
    · intro hhb
      rcases hga : a.matches_ with _ | msa
      · rcases hgb : b.matches_ with _ | msb
        · simp [resHasM, hgb] at hhb
        · have hpb : 0 < msb.length := List.length_pos.mpr (hwb msb hgb)
          rw [cmp_none_some a b msb hga hgb hpb] at hab
          omega
      · have hpa : 0 < msa.length := List.length_pos.mpr (hwa msa hga)
        simp [resHasM, hga, hpa]
    · intro hha hhb
      rcases hga : a.matches_ with _ | msa
      · simp [resHasM, hga] at hha
      · rcases hgb : b.matches_ with _ | msb
        · simp [resHasM, hgb] at hhb
        · have hpa : 0 < msa.length := List.length_pos.mpr (hwa msa hga)
          have hpb : 0 < msb.length := List.length_pos.mpr (hwb msb hgb)
          rw [cmp_some_some a b msa msb hga hgb hpa hpb] at hab
          simp [hga, hgb]
          omega
    · intro hha hhb
      rcases hga : a.matches_ with _ | msa
      · rcases hgb : b.matches_ with _ | msb
        · rw [cmp_none_none a b hga hgb] at hab
          exact hab
        · have hpb : 0 < msb.length := List.length_pos.mpr (hwb msb hgb)
          simp [resHasM, hgb, hpb] at hhb
      · have hpa : 0 < msa.length := List.length_pos.mpr (hwa msa hga)
        simp [resHasM, hga, hpa] at hha
  exact List.Pairwise.sublist (List.take_sublist _ _) hsorted2
